import Mathlib

/-!
Shallow embedding of `TexasHistoricalMarkerCSVtoJSON.py`: a one-shot CSV to
JSON converter for Texas historical-marker records.  Rows coming out of
`csv.DictReader` are modelled as association lists from column name to an
optional string (Python `None` is `Option.none`), the per-row dictionary
construction is `buildRec`, the whole read loop is `convert`, and the two
`json.dump` calls are modelled by a JSON syntax tree together with real text
serializers (pretty-printed with indent 2, compact with ASCII escaping) and
a real JSON decoder, so that round-trip facts about the two output files can
be stated and proved.
-/

namespace TexasMarkers

/-- Exact model of the Python float values this converter produces:
the value `mantissa / 10 ^ exponent`.  Parsing keeps the representation
canonical (no trailing zero digits in the fraction), mirroring the fact that
`float("29.4260")` and `float("29.426")` are the same Python float. -/
structure PyFloat where
  mantissa : Int
  exponent : Nat
deriving Repr, DecidableEq

/-- Whitespace characters stripped by Python `str.strip` (ASCII fragment). -/
def pySpace (c : Char) : Bool :=
  c = ' ' || c = '\t' || c = '\n' || c = '\r' || c = '\x0b' || c = '\x0c'

/-- Python `str.strip` on a character list. -/
def stripChars (l : List Char) : List Char :=
  ((l.dropWhile pySpace).reverse.dropWhile pySpace).reverse

/-- Python `str.strip`. -/
def pyStrip (s : String) : String := ⟨stripChars s.data⟩

def isDigitCh (ch : Char) : Bool := '0' ≤ ch && ch ≤ '9'

def digitVal (ch : Char) : Nat := ch.toNat - 48

def digitsVal (l : List Char) : Nat := l.foldl (fun a c => a * 10 + digitVal c) 0

/-- Canonical form: strip trailing zero digits off the fraction part. -/
def pyNormalize (m : Int) : Nat → PyFloat
  | 0 => ⟨m, 0⟩
  | e + 1 => if m % 10 = 0 then pyNormalize (m / 10) e else ⟨m, e + 1⟩

/-- The characters CPython `float` skips around the literal, restricted to
code points below 128: the C `isspace` set `\t\n\v\f\r` and the
space. -/
def floatSpace (c : Char) : Bool :=
  (9 ≤ c.toNat && c.toNat ≤ 13) || c = ' '

def stripFS (l : List Char) : List Char :=
  ((l.dropWhile floatSpace).reverse.dropWhile floatSpace).reverse

/-- A run of decimal digits in a Python float literal, where a single
underscore may stand between two digits (as since Python 3.6): returns
the digits' value, their count and the unconsumed rest, or `none` when no
digit starts the run or an underscore is not surrounded by digits.  `pd`
records whether the previously consumed character was a digit. -/
def grp : List Char → Nat → Nat → Bool → Option (Nat × Nat × List Char)
  | [], acc, nd, pd => if pd then some (acc, nd, []) else none
  | c :: r, acc, nd, pd =>
      if isDigitCh c then grp r (acc * 10 + digitVal c) (nd + 1) true
      else if c = '_' then (if pd then grp r acc nd false else none)
      else if pd then some (acc, nd, c :: r) else none

/-- The significand of a float literal, `digits [. [digits]]` or
`. digits`: returns the combined digits' value, the count of fractional
digits and the unconsumed rest. -/
def parseSig : List Char → Option (Nat × Nat × List Char)
  | '.' :: r => grp r 0 0 false
  | l =>
      match grp l 0 0 false with
      | none => none
      | some (I, _, rest) =>
          match rest with
          | '.' :: r2 =>
              match r2 with
              | c2 :: _ =>
                  if isDigitCh c2 then
                    match grp r2 0 0 false with
                    | some (F, nF, rest3) => some (I * 10 ^ nF + F, nF, rest3)
                    | none => none
                  else some (I, 0, r2)
              | [] => some (I, 0, [])
          | _ => some (I, 0, rest)

/-- The optional exponent of a float literal, `(e|E) [sign] digits`:
returns its signed value (`0` when absent) and the unconsumed rest. -/
def parseExp : List Char → Option (Int × List Char)
  | [] => some (0, [])
  | c :: r =>
      if c = 'e' || c = 'E' then
        match r with
        | '+' :: r2 => (grp r2 0 0 false).map (fun t => ((t.1 : Int), t.2.2))
        | '-' :: r2 => (grp r2 0 0 false).map (fun t => (-(t.1 : Int), t.2.2))
        | _ => (grp r 0 0 false).map (fun t => ((t.1 : Int), t.2.2))
      else some (0, c :: r)

def pySigned (neg : Bool) (M : Nat) : Int := if neg then -(M : Int) else (M : Int)

/-- Assemble `±M × 10 ^ (E - nF)` as a canonical exact decimal. -/
def pyFromParts (neg : Bool) (M nF : Nat) (E : Int) : PyFloat :=
  if 0 ≤ E - (nF : Int) then
    pyNormalize (pySigned neg M * 10 ^ (E - (nF : Int)).toNat) 0
  else pyNormalize (pySigned neg M) ((nF : Int) - E).toNat

def pyFloatCore (neg : Bool) (l : List Char) : Option PyFloat :=
  (parseSig l).bind fun sig =>
    (parseExp sig.2.2).bind fun ex =>
      match ex.2 with
      | [] => some (pyFromParts neg sig.1 sig.2.1 ex.1)
      | _ => none

/-- Model of CPython `float(s)` restricted to its finite forms over ASCII
text: optional float-whitespace, an optional sign, a significand of
decimal digits with single underscores between digits and an optional
fractional part, and an optional `e`/`E` exponent.  On that domain `none`
is exactly where `float` raises `ValueError`.  Outside it sit the
non-finite `inf`/`infinity`/`nan` forms (see `nonFiniteForm`) and
non-ASCII decimal digits and spaces, which `float` accepts but an exact
decimal cannot carry; theorems whose meaning rests on the rejection
boundary exclude those by hypothesis. -/
def pyFloat (s : String) : Option PyFloat :=
  match stripFS s.data with
  | '+' :: r => pyFloatCore false r
  | '-' :: r => pyFloatCore true r
  | l => pyFloatCore false l

def lowerAscii (c : Char) : Char :=
  if 'A' ≤ c && c ≤ 'Z' then Char.ofNat (c.toNat + 32) else c

def nfBody (l : List Char) : Bool :=
  l.map lowerAscii = ['i', 'n', 'f'] ||
  l.map lowerAscii = ['i', 'n', 'f', 'i', 'n', 'i', 't', 'y'] ||
  l.map lowerAscii = ['n', 'a', 'n']

/-- The non-finite spellings CPython `float` accepts: `inf`, `infinity`
or `nan`, case-insensitive, with an optional sign and surrounding
float-whitespace.  They parse to values outside the exact-decimal float
model. -/
def nonFiniteForm (s : String) : Bool :=
  nfBody (match stripFS s.data with
    | '+' :: r => r
    | '-' :: r => r
    | l => l)

/-- A row as produced by `csv.DictReader`: column name to value, where the
value `none` models Python `None` (the `restval` padding of short rows). -/
abbrev Row := List (String × Option String)

/-- Python `row.get(key, default)`. -/
def rowGet (row : Row) (k : String) (d : Option String) : Option String :=
  (row.lookup k).getD d

/-- The unhandled Python exceptions the loop body can raise. -/
inductive PyErr where
  | attrError
  | valueError
deriving Repr, DecidableEq

deriving instance DecidableEq for Except

/-- Python `v.strip()` where `v` may be `None`: `None` has no `strip`
attribute, so the call raises. -/
def stripV : Option String → Except PyErr String
  | none => .error .attrError
  | some s => .ok (pyStrip s)

/-- `float(row[k]) if row.get(k) else None` for a coordinate field: `None`
and the empty string are falsy and give the null sentinel; any other string
is fed to `float`, which raises `ValueError` when it cannot parse. -/
def parseCoord : Option String → Except PyErr (Option PyFloat)
  | none => .ok none
  | some s =>
      if s = "" then .ok none
      else
        match pyFloat s with
        | some f => .ok (some f)
        | none => .error .valueError

structure Coordinates where
  latitude : Option PyFloat
  longitude : Option PyFloat
deriving Repr, DecidableEq

structure Address where
  city : Option String
  county : Option String
  state : String
deriving Repr, DecidableEq

structure SourceEntry where
  name : String
  url : String
  source_id : Option String
deriving Repr, DecidableEq

/-- One output record (the dictionary `rec` of the script), field for
field, in the script's key order. -/
structure MarkerRec where
  id : String
  title : String
  description : String
  date_installed : Option String
  coordinates : Coordinates
  address : Address
  images : List String
  source : List SourceEntry
  type : String
  tags : List String
  confidence : PyFloat
deriving Repr, DecidableEq

def INPUT : String := "Historical Marker_20251112_113626_6777607.csv"

def OUTPUT : String := "tx_historical_markers.json"

def ZIP : String := "tx_historical_markers.json.gz"

def thcName : String := "Texas Historical Commission"

def thcUrl : String := "https://atlas.thc.texas.gov/Data/DataDownload"

/-- The body of `for row in reader`: build one record.  The dictionary
entries are evaluated in source order, so the first failing field determines
the exception. -/
def buildRec (row : Row) : Except PyErr MarkerRec :=
  match stripV (rowGet row "AtlasNumber" (some "")) with
  | .error e => .error e
  | .ok atlas =>
  match stripV (rowGet row "MarkerTitle" (some "")) with
  | .error e => .error e
  | .ok mtitle =>
  match stripV (rowGet row "MarkerText" (some "")) with
  | .error e => .error e
  | .ok mtext =>
  match parseCoord (rowGet row "Latitude" none) with
  | .error e => .error e
  | .ok lat =>
  match parseCoord (rowGet row "Longitude" none) with
  | .error e => .error e
  | .ok lon =>
  .ok
    { id := "tx-thc-" ++ atlas
      title := mtitle
      description := mtext
      date_installed := rowGet row "YearMarkerErected" (some "")
      coordinates := { latitude := lat, longitude := lon }
      address :=
        { city := rowGet row "City" (some "")
          county := rowGet row "County" (some "")
          state := "TX" }
      images := []
      source :=
        [{ name := thcName
           url := thcUrl
           source_id := rowGet row "AtlasNumber" (some "") }]
      type := "state marker (TX)"
      tags := []
      confidence := ⟨9, 1⟩ }

/-- The whole read loop building `records`: the first exception aborts,
dropping every record built so far. -/
def convert : List Row → Except PyErr (List MarkerRec)
  | [] => .ok []
  | row :: rows =>
      match buildRec row with
      | .error e => .error e
      | .ok r =>
          match convert rows with
          | .error e => .error e
          | .ok rs => .ok (r :: rs)

/-- `csv.DictReader` row assembly: zip the header with the row's values,
padding a short row with `None` (the default `restval`); extra values
beyond the header land under the `None` key and are unreachable by the
string lookups this script performs. -/
def mkRow (fs : List String) (vs : List String) : Row :=
  fs.zip (vs.map some ++ List.replicate (fs.length - vs.length) none)

/-- The header of the published THC extract, in file order. -/
def stdHeader : List String :=
  ["AtlasNumber", "MarkerTitle", "MarkerText", "YearMarkerErected",
   "Latitude", "Longitude", "City", "County"]

/-! ## The JSON documents the two `json.dump` calls serialize -/

mutual
/-- JSON syntax tree; numbers are the exact Python float model. -/
inductive Json where
  | null
  | num (f : PyFloat)
  | str (s : String)
  | arr (elems : JsonList)
  | obj (fields : JsonFields)
deriving Repr, DecidableEq

inductive JsonList where
  | nil
  | cons (hd : Json) (tl : JsonList)
deriving Repr, DecidableEq

inductive JsonFields where
  | nil
  | cons (key : String) (val : Json) (tl : JsonFields)
deriving Repr, DecidableEq
end

def optStrJson : Option String → Json
  | none => .null
  | some s => .str s

def optNumJson : Option PyFloat → Json
  | none => .null
  | some f => .num f

def srcJson (e : SourceEntry) : Json :=
  .obj (.cons "name" (.str e.name)
    (.cons "url" (.str e.url)
      (.cons "source_id" (optStrJson e.source_id) .nil)))

def strListJson : List String → JsonList
  | [] => .nil
  | s :: r => .cons (.str s) (strListJson r)

def srcListJson : List SourceEntry → JsonList
  | [] => .nil
  | e :: r => .cons (srcJson e) (srcListJson r)

/-- The JSON object one `rec` dictionary denotes, keys in insertion
order (Python dictionaries preserve it). -/
def recJson (r : MarkerRec) : Json :=
  .obj (.cons "id" (.str r.id)
    (.cons "title" (.str r.title)
      (.cons "description" (.str r.description)
        (.cons "date_installed" (optStrJson r.date_installed)
          (.cons "coordinates"
              (.obj (.cons "latitude" (optNumJson r.coordinates.latitude)
                (.cons "longitude" (optNumJson r.coordinates.longitude) .nil)))
            (.cons "address"
                (.obj (.cons "city" (optStrJson r.address.city)
                  (.cons "county" (optStrJson r.address.county)
                    (.cons "state" (.str r.address.state) .nil))))
              (.cons "images" (.arr (strListJson r.images))
                (.cons "source" (.arr (srcListJson r.source))
                  (.cons "type" (.str r.type)
                    (.cons "tags" (.arr (strListJson r.tags))
                      (.cons "confidence" (.num r.confidence) .nil)))))))))))

def recsJson : List MarkerRec → JsonList
  | [] => .nil
  | r :: rs => .cons (recJson r) (recsJson rs)

/-- The top-level JSON array `records` denotes. -/
def recordsJson (recs : List MarkerRec) : Json := .arr (recsJson recs)

def fieldKeys : JsonFields → List String
  | .nil => []
  | .cons k _ tl => k :: fieldKeys tl

/-- Key list of a JSON object, in serialization order. -/
def objKeys : Json → List String
  | .obj fs => fieldKeys fs
  | _ => []

/-! ## Tokens and text serialization -/

inductive Tok where
  | lbrace
  | rbrace
  | lbrack
  | rbrack
  | colon
  | comma
  | tnull
  | tstr (s : String)
  | tnum (f : PyFloat)
deriving Repr, DecidableEq

mutual
/-- The token stream of a JSON value (whitespace-free skeleton shared by
the pretty and the compact serialization). -/
def jsonToks : Json → List Tok
  | .null => [.tnull]
  | .num f => [.tnum f]
  | .str s => [.tstr s]
  | .arr es => .lbrack :: listToks es ++ [.rbrack]
  | .obj fs => .lbrace :: fieldToks fs ++ [.rbrace]

def listToks : JsonList → List Tok
  | .nil => []
  | .cons x tl => jsonToks x ++ listSepToks tl

def listSepToks : JsonList → List Tok
  | .nil => []
  | .cons x tl => .comma :: jsonToks x ++ listSepToks tl

def fieldToks : JsonFields → List Tok
  | .nil => []
  | .cons k v tl => .tstr k :: .colon :: jsonToks v ++ fieldSepToks tl

def fieldSepToks : JsonFields → List Tok
  | .nil => []
  | .cons k v tl => .comma :: .tstr k :: .colon :: jsonToks v ++ fieldSepToks tl
end

/-- A serialized fragment: a token or inter-token whitespace. -/
inductive Seg where
  | tok (t : Tok)
  | ws (w : List Char)
deriving Repr, DecidableEq

def hexDigitCh (n : Nat) : Char :=
  match n with
  | 0 => '0' | 1 => '1' | 2 => '2' | 3 => '3' | 4 => '4'
  | 5 => '5' | 6 => '6' | 7 => '7' | 8 => '8' | 9 => '9'
  | 10 => 'a' | 11 => 'b' | 12 => 'c' | 13 => 'd' | 14 => 'e'
  | _ => 'f'

def hexVal (c : Char) : Option Nat :=
  if isDigitCh c then some (digitVal c)
  else if 'a' ≤ c && c ≤ 'f' then some (c.toNat - 87)
  else if 'A' ≤ c && c ≤ 'F' then some (c.toNat - 55)
  else none

def toHex4 (n : Nat) : List Char :=
  [hexDigitCh (n / 4096 % 16), hexDigitCh (n / 256 % 16),
   hexDigitCh (n / 16 % 16), hexDigitCh (n % 16)]

/-- Python `json` string escaping for one character.  With `ascii := false`
(the plain dump, `ensure_ascii=False`) only quote, backslash and control
characters are escaped; with `ascii := true` (the gzip dump's default)
every character outside `0x20`-`0x7e` is escaped too, astral ones as a
surrogate pair. -/
def escapeChar (ascii : Bool) (c : Char) : List Char :=
  if c = '"' then ['\\', '"']
  else if c = '\\' then ['\\', '\\']
  else if c = '\x08' then ['\\', 'b']
  else if c = '\t' then ['\\', 't']
  else if c = '\n' then ['\\', 'n']
  else if c = '\x0c' then ['\\', 'f']
  else if c = '\r' then ['\\', 'r']
  else if c.toNat < 0x20 then '\\' :: 'u' :: toHex4 c.toNat
  else if ascii && decide (0x7e < c.toNat) then
    if c.toNat < 0x10000 then '\\' :: 'u' :: toHex4 c.toNat
    else
      let n := c.toNat - 0x10000
      ('\\' :: 'u' :: toHex4 (0xd800 + n / 0x400)) ++
        ('\\' :: 'u' :: toHex4 (0xdc00 + n % 0x400))
  else [c]

def escapeStr (ascii : Bool) : List Char → List Char
  | [] => []
  | c :: r => escapeChar ascii c ++ escapeStr ascii r

/-- Little-endian decimal digits, with enough fuel to exhaust `n`. -/
def natDigitsRev : Nat → Nat → List Char
  | 0, _ => []
  | fuel + 1, n => if n = 0 then [] else hexDigitCh (n % 10) :: natDigitsRev fuel (n / 10)

/-- Decimal digit string of a natural number. -/
def natDigits (n : Nat) : List Char :=
  if n = 0 then ['0'] else (natDigitsRev n n).reverse

/-- How Python `repr` writes the floats this model meets: the digit string
with a decimal point, integral values getting a trailing `.0`. -/
def renderFloat (f : PyFloat) : List Char :=
  let sgn : List Char := if f.mantissa < 0 then ['-'] else []
  let a := f.mantissa.natAbs
  if f.exponent = 0 then sgn ++ natDigits a ++ ['.', '0']
  else
    let ds := natDigits a
    let ds :=
      if ds.length ≤ f.exponent then
        List.replicate (f.exponent + 1 - ds.length) '0' ++ ds
      else ds
    sgn ++ ds.take (ds.length - f.exponent) ++ '.' :: ds.drop (ds.length - f.exponent)

def renderTok (ascii : Bool) : Tok → List Char
  | .lbrace => ['\x7b']
  | .rbrace => ['\x7d']
  | .lbrack => ['[']
  | .rbrack => [']']
  | .colon => [':']
  | .comma => [',']
  | .tnull => ['n', 'u', 'l', 'l']
  | .tstr s => '"' :: escapeStr ascii s.data ++ ['"']
  | .tnum f => renderFloat f

def renderSeg (ascii : Bool) : Seg → List Char
  | .tok t => renderTok ascii t
  | .ws w => w

def render (ascii : Bool) : List Seg → List Char
  | [] => []
  | s :: r => renderSeg ascii s ++ render ascii r

/-- Newline plus the indentation of depth `d` (`indent=2`). -/
def nlws (d : Nat) : List Char := '\n' :: List.replicate (2 * d) ' '

mutual
/-- Segment stream of `json.dump(..., indent=2)` at depth `d`:
newline-separated items indented two spaces per level, `": "` after keys. -/
def emitP : Json → Nat → List Seg
  | .null, _ => [.tok .tnull]
  | .num f, _ => [.tok (.tnum f)]
  | .str s, _ => [.tok (.tstr s)]
  | .arr .nil, _ => [.tok .lbrack, .tok .rbrack]
  | .arr (.cons x tl), d =>
      .tok .lbrack :: .ws (nlws (d + 1)) ::
        (emitP x (d + 1) ++ emitPListSep tl (d + 1) ++ [.ws (nlws d), .tok .rbrack])
  | .obj .nil, _ => [.tok .lbrace, .tok .rbrace]
  | .obj (.cons k v tl), d =>
      .tok .lbrace :: .ws (nlws (d + 1)) :: .tok (.tstr k) :: .tok .colon :: .ws [' '] ::
        (emitP v (d + 1) ++ emitPFieldSep tl (d + 1) ++ [.ws (nlws d), .tok .rbrace])

def emitPListSep : JsonList → Nat → List Seg
  | .nil, _ => []
  | .cons x tl, d =>
      .tok .comma :: .ws (nlws d) :: (emitP x d ++ emitPListSep tl d)

def emitPFieldSep : JsonFields → Nat → List Seg
  | .nil, _ => []
  | .cons k v tl, d =>
      .tok .comma :: .ws (nlws d) :: .tok (.tstr k) :: .tok .colon :: .ws [' '] ::
        (emitP v d ++ emitPFieldSep tl d)
end

mutual
/-- Segment stream of the default `json.dump`: separators `", "`, `": "`,
no newlines. -/
def emitC : Json → List Seg
  | .null => [.tok .tnull]
  | .num f => [.tok (.tnum f)]
  | .str s => [.tok (.tstr s)]
  | .arr .nil => [.tok .lbrack, .tok .rbrack]
  | .arr (.cons x tl) =>
      .tok .lbrack :: (emitC x ++ emitCListSep tl ++ [.tok .rbrack])
  | .obj .nil => [.tok .lbrace, .tok .rbrace]
  | .obj (.cons k v tl) =>
      .tok .lbrace :: .tok (.tstr k) :: .tok .colon :: .ws [' '] ::
        (emitC v ++ emitCFieldSep tl ++ [.tok .rbrace])

def emitCListSep : JsonList → List Seg
  | .nil => []
  | .cons x tl =>
      .tok .comma :: .ws [' '] :: (emitC x ++ emitCListSep tl)

def emitCFieldSep : JsonFields → List Seg
  | .nil => []
  | .cons k v tl =>
      .tok .comma :: .ws [' '] :: .tok (.tstr k) :: .tok .colon :: .ws [' '] ::
        (emitC v ++ emitCFieldSep tl)
end

/-! ## The JSON decoder: lexer and pushdown parser -/

def wsCh (c : Char) : Bool := c = ' ' || c = '\n' || c = '\t' || c = '\r'

def numCh (c : Char) : Bool := isDigitCh c || c = '-' || c = '.'

def hex4Val (h1 h2 h3 h4 : Char) : Option Nat :=
  match hexVal h1, hexVal h2, hexVal h3, hexVal h4 with
  | some a, some b, some c, some d => some (((a * 16 + b) * 16 + c) * 16 + d)
  | _, _, _, _ => none

def escCharOf (e : Char) : Option Char :=
  if e = '"' then some '"'
  else if e = '\\' then some '\\'
  else if e = '/' then some '/'
  else if e = 'b' then some '\x08'
  else if e = 'f' then some '\x0c'
  else if e = 'n' then some '\n'
  else if e = 'r' then some '\r'
  else if e = 't' then some '\t'
  else none

/-- Decode a `\uXXXX` escape body: four hex digits, possibly followed by
the low half of a surrogate pair. -/
def decodeU : List Char → Option (Char × List Char)
  | h1 :: h2 :: h3 :: h4 :: rest3 =>
      (hex4Val h1 h2 h3 h4).bind (fun n =>
        if 0xd800 ≤ n ∧ n < 0xdc00 then
          match rest3 with
          | b :: u :: g1 :: g2 :: g3 :: g4 :: rest4 =>
              if b = '\\' ∧ u = 'u' then
                (hex4Val g1 g2 g3 g4).bind (fun m =>
                  if 0xdc00 ≤ m ∧ m < 0xe000 then
                    some (Char.ofNat
                      (0x10000 + (n - 0xd800) * 0x400 + (m - 0xdc00)), rest4)
                  else none)
              else none
          | _ => none
        else if 0xdc00 ≤ n ∧ n < 0xe000 then none
        else some (Char.ofNat n, rest3))
  | _ => none

/-- Decode one escape sequence (the part after the backslash): a named
escape, `\uXXXX`, or a surrogate pair; returns the decoded character and
the remaining input. -/
def decodeEsc : List Char → Option (Char × List Char)
  | [] => none
  | e :: rest2 =>
      if e = 'u' then decodeU rest2
      else (escCharOf e).map (fun c2 => (c2, rest2))

def scanStr : Nat → List Char → Option (List Char × List Char)
  | 0, _ => none
  | _ + 1, [] => none
  | fuel + 1, c :: rest =>
      if c = '"' then some ([], rest)
      else if c = '\\' then
        (decodeEsc rest).bind (fun p =>
          (scanStr fuel p.2).map (fun q => (p.1 :: q.1, q.2)))
      else if c.toNat < 0x20 then none
      else (scanStr fuel rest).map (fun p => (c :: p.1, p.2))

/-- Magnitude of a number token: digits with an optional non-empty
fraction; the value as scaled mantissa and fraction length. -/
def parseNumMag (l : List Char) : Option (Nat × Nat) :=
  let ip := l.takeWhile isDigitCh
  let rest := l.dropWhile isDigitCh
  if ip.isEmpty then none
  else
    match rest with
    | [] => some (digitsVal ip, 0)
    | '.' :: fp =>
        if !fp.isEmpty && fp.all isDigitCh then
          some (digitsVal (ip ++ fp), fp.length)
        else none
    | _ => none

/-- Parse one maximal run of number characters (the shapes `renderFloat`
writes: optional minus, digits, optional fraction). -/
def parseNumToken (l : List Char) : Option PyFloat :=
  match l with
  | [] => none
  | c :: r =>
      if c = '-' then
        (parseNumMag r).map (fun p => pyNormalize (-(p.1 : Int)) p.2)
      else
        (parseNumMag (c :: r)).map (fun p => pyNormalize (p.1 : Int) p.2)

/-- The lookahead after an `n`: the letters completing `null`. -/
def lexNull : List Char → Option (List Char)
  | 'u' :: 'l' :: 'l' :: r2 => some r2
  | _ => none

/-- Tokenizer. -/
def lexF : Nat → List Char → Option (List Tok)
  | 0, _ => none
  | fuel + 1, s =>
      match s.dropWhile wsCh with
      | [] => some []
      | c :: r =>
          if c = '\x7b' then (lexF fuel r).map (.lbrace :: ·)
          else if c = '\x7d' then (lexF fuel r).map (.rbrace :: ·)
          else if c = '[' then (lexF fuel r).map (.lbrack :: ·)
          else if c = ']' then (lexF fuel r).map (.rbrack :: ·)
          else if c = ':' then (lexF fuel r).map (.colon :: ·)
          else if c = ',' then (lexF fuel r).map (.comma :: ·)
          else if c = '"' then
            (scanStr (r.length + 1) r).bind (fun p =>
              (lexF fuel p.2).map (.tstr ⟨p.1⟩ :: ·))
          else if c = 'n' then
            (lexNull r).bind (fun r2 => (lexF fuel r2).map (.tnull :: ·))
          else if numCh c then
            (parseNumToken ((c :: r).takeWhile numCh)).bind (fun f =>
              (lexF fuel ((c :: r).dropWhile numCh)).map (.tnum f :: ·))
          else none

/-- Parser stack frame: an array or an object being filled (elements
accumulated in reverse; `key` is the key awaiting its value). -/
inductive Frame where
  | farr (acc : List Json)
  | fobj (acc : List (String × Json)) (key : String)
deriving Repr, DecidableEq

inductive PMode where
  | pv
  | pvz
  | pcomma
  | pkey
  | pkey2
  | pcolonM (k : String)
  | pdone (v : Json)
deriving Repr, DecidableEq

def revListJson : List Json → JsonList → JsonList
  | [], t => t
  | x :: xs, t => revListJson xs (.cons x t)

def revFieldsJson : List (String × Json) → JsonFields → JsonFields
  | [], t => t
  | p :: ps, t => revFieldsJson ps (.cons p.1 p.2 t)

/-- Attach a completed value to the innermost open container. -/
def closeValue (v : Json) (stk : List Frame) : PMode × List Frame :=
  match stk with
  | [] => (.pdone v, [])
  | .farr acc :: rest => (.pcomma, .farr (v :: acc) :: rest)
  | .fobj acc k :: rest => (.pcomma, .fobj ((k, v) :: acc) "" :: rest)

/-- One parser transition. -/
def step : Tok → PMode → List Frame → Option (PMode × List Frame)
  | .tnull, .pv, stk => some (closeValue .null stk)
  | .tnull, .pvz, stk => some (closeValue .null stk)
  | .tnum f, .pv, stk => some (closeValue (.num f) stk)
  | .tnum f, .pvz, stk => some (closeValue (.num f) stk)
  | .tstr s, .pv, stk => some (closeValue (.str s) stk)
  | .tstr s, .pvz, stk => some (closeValue (.str s) stk)
  | .lbrack, .pv, stk => some (.pvz, .farr [] :: stk)
  | .lbrack, .pvz, stk => some (.pvz, .farr [] :: stk)
  | .lbrace, .pv, stk => some (.pkey, .fobj [] "" :: stk)
  | .lbrace, .pvz, stk => some (.pkey, .fobj [] "" :: stk)
  | .rbrack, .pvz, stk =>
      match stk with
      | .farr acc :: rest => some (closeValue (.arr (revListJson acc .nil)) rest)
      | _ => none
  | .rbrack, .pcomma, stk =>
      match stk with
      | .farr acc :: rest => some (closeValue (.arr (revListJson acc .nil)) rest)
      | _ => none
  | .rbrace, .pkey, stk =>
      match stk with
      | .fobj acc _ :: rest => some (closeValue (.obj (revFieldsJson acc .nil)) rest)
      | _ => none
  | .rbrace, .pcomma, stk =>
      match stk with
      | .fobj acc _ :: rest => some (closeValue (.obj (revFieldsJson acc .nil)) rest)
      | _ => none
  | .comma, .pcomma, stk =>
      match stk with
      | .farr _ :: _ => some (.pv, stk)
      | .fobj _ _ :: _ => some (.pkey2, stk)
      | [] => none
  | .tstr s, .pkey, stk => some (.pcolonM s, stk)
  | .tstr s, .pkey2, stk => some (.pcolonM s, stk)
  | .colon, .pcolonM k, stk =>
      match stk with
      | .fobj acc _ :: rest => some (.pv, .fobj acc k :: rest)
      | _ => none
  | _, _, _ => none

def stepAll : List Tok → PMode → List Frame → Option Json
  | [], .pdone v, [] => some v
  | [], _, _ => none
  | t :: ts, mode, stk =>
      match step t mode stk with
      | some ms => stepAll ts ms.1 ms.2
      | none => none

def parseToks (ts : List Tok) : Option Json := stepAll ts .pv []

/-- `json.load`: tokenize, then parse. -/
def jsonLoads (s : List Char) : Option Json :=
  match lexF (s.length + 1) s with
  | some ts => parseToks ts
  | none => none

/-! ## The whole run -/

/-- The gzip container: lossless, so modelled by its decompressed text. -/
structure GzFile where
  content : List Char
deriving Repr, DecidableEq

def gunzip (g : GzFile) : List Char := g.content

/-- The observable effects of a successful run: the two files and the
summary line. -/
structure RunOutput where
  plainFile : List Char
  gzFile : GzFile
  summary : String
deriving Repr, DecidableEq

/-- The whole script: build all records, then write the pretty-printed
JSON (`ensure_ascii=False, indent=2`), then the compact ASCII JSON through
the gzip stream, then the summary line.  Any exception in the loop aborts
before either output exists. -/
def run (rows : List Row) : Except PyErr RunOutput :=
  match convert rows with
  | .error e => .error e
  | .ok records =>
      .ok { plainFile := render false (emitP (recordsJson records) 0)
            gzFile := ⟨render true (emitC (recordsJson records))⟩
            summary := "Wrote " ++ toString records.length ++ " markers to " ++
              OUTPUT ++ " and " ++ ZIP }

/-- A float representation is canonical when its fraction carries no
trailing zero digit; `pyFloat` and the number lexer only ever produce
canonical representations. -/
def PyFloat.norm (f : PyFloat) : Bool :=
  f.exponent == 0 || f.mantissa % 10 != 0

mutual
/-- All numbers of a JSON value are canonically represented. -/
def jnorm : Json → Bool
  | .null => true
  | .num f => f.norm
  | .str _ => true
  | .arr es => jnormList es
  | .obj fs => jnormFields fs

def jnormList : JsonList → Bool
  | .nil => true
  | .cons x tl => jnorm x && jnormList tl

def jnormFields : JsonFields → Bool
  | .nil => true
  | .cons _ v tl => jnorm v && jnormFields tl
end

/-- All floats stored in a record are canonically represented. -/
def recNormalized (r : MarkerRec) : Prop :=
  (∀ f, r.coordinates.latitude = some f → f.norm = true) ∧
  (∀ f, r.coordinates.longitude = some f → f.norm = true) ∧
  r.confidence.norm = true

/-- The token stream a segment stream carries. -/
def segToks : List Seg → List Tok
  | [] => []
  | .tok t :: r => t :: segToks r
  | .ws _ :: r => segToks r

def isNumTok : Tok → Bool
  | .tnum _ => true
  | _ => false

/-- Tokens whose first rendered character cannot extend a number. -/
def tokHeadSafe : Tok → Bool
  | .tnum _ => false
  | _ => true

/-- The whitespace the emitters write. -/
def wsOnly (w : List Char) : Bool := w.all (fun c => c = '\n' || c = ' ')

/-- The first rendered character of the stream, if any, cannot extend a
preceding number token. -/
def startsSafe : List Seg → Bool
  | [] => true
  | .ws [] :: r => startsSafe r
  | .ws (c :: _) :: _ => !numCh c
  | .tok t :: _ => tokHeadSafe t

/-- Well-formed segment streams: whitespace segments hold only emitter
whitespace, and whatever follows a number token starts safely. -/
def segsWF : List Seg → Bool
  | [] => true
  | .ws w :: r => wsOnly w && segsWF r
  | .tok t :: r => (!isNumTok t || startsSafe r) && segsWF r

/-- All number tokens of the stream are canonically represented. -/
def segsNorm : List Seg → Bool
  | [] => true
  | .tok (.tnum f) :: r => f.norm && segsNorm r
  | _ :: r => segsNorm r

/-- Field lookup on a JSON object. -/
def fieldGet : JsonFields → String → Option Json
  | .nil, _ => none
  | .cons k v tl, key => if k = key then some v else fieldGet tl key

def jsonField (j : Json) (k : String) : Option Json :=
  match j with
  | .obj fs => fieldGet fs k
  | _ => none

/-! ## Concrete scenario rows -/

/-- The row of the spec's concrete Alamo scenario. -/
def alamoRow : Row :=
  [("AtlasNumber", some "5535"), ("MarkerTitle", some " Alamo "),
   ("MarkerText", some "Remember the Alamo."), ("YearMarkerErected", some "1936"),
   ("Latitude", some "29.4260"), ("Longitude", some "-98.4861"),
   ("City", some "San Antonio"), ("County", some "Bexar")]

/-- The record the spec says that row must yield, written out value by
value from the spec's enumeration (`29.426` is `29426 / 10 ^ 3`,
`-98.4861` is `-984861 / 10 ^ 4`, `0.9` is `9 / 10 ^ 1`). -/
def alamoRec : MarkerRec :=
  { id := "tx-thc-5535"
    title := "Alamo"
    description := "Remember the Alamo."
    date_installed := some "1936"
    coordinates := ⟨some ⟨29426, 3⟩, some ⟨-984861, 4⟩⟩
    address := ⟨some "San Antonio", some "Bexar", "TX"⟩
    images := []
    source := [⟨"Texas Historical Commission",
               "https://atlas.thc.texas.gov/Data/DataDownload", some "5535"⟩]
    type := "state marker (TX)"
    tags := []
    confidence := ⟨9, 1⟩ }

/-- The malformed-coordinate scenario of the spec: `Latitude="N/A"`. -/
def badLatRow : Row :=
  [("AtlasNumber", some "1"), ("MarkerTitle", some "T"),
   ("MarkerText", some "D"), ("Latitude", some "N/A")]

/-- A row with an empty latitude and an out-of-range longitude. -/
def emptyLatRow : Row :=
  [("AtlasNumber", some "2"), ("MarkerTitle", some "T"),
   ("MarkerText", some "D"), ("Latitude", some ""), ("Longitude", some "999.5")]

/-- A row whose atlas number carries surrounding whitespace, so the
trimmed `id` and the raw `source_id` visibly differ. -/
def paddedAtlasRow : Row :=
  [("AtlasNumber", some " 77 "), ("MarkerTitle", some "T"), ("MarkerText", some "D")]

def outAlamo : RunOutput :=
  match run [alamoRow] with
  | .ok o => o
  | .error _ => ⟨[], ⟨[]⟩, ""⟩

/-! ## Helper lemmas on the converter -/

/-- What a successful `buildRec` tells about the row and the record. -/
theorem buildRec_ok_fields {row : Row} {r : MarkerRec} (h : buildRec row = .ok r) :
    ∃ a t x lat lon,
      rowGet row "AtlasNumber" (some "") = some a ∧
      rowGet row "MarkerTitle" (some "") = some t ∧
      rowGet row "MarkerText" (some "") = some x ∧
      parseCoord (rowGet row "Latitude" none) = .ok lat ∧
      parseCoord (rowGet row "Longitude" none) = .ok lon ∧
      r = { id := "tx-thc-" ++ pyStrip a
            title := pyStrip t
            description := pyStrip x
            date_installed := rowGet row "YearMarkerErected" (some "")
            coordinates := ⟨lat, lon⟩
            address := ⟨rowGet row "City" (some ""), rowGet row "County" (some ""), "TX"⟩
            images := []
            source := [⟨thcName, thcUrl, rowGet row "AtlasNumber" (some "")⟩]
            type := "state marker (TX)"
            tags := []
            confidence := ⟨9, 1⟩ } := by
  unfold buildRec at h
  cases hA : rowGet row "AtlasNumber" (some "") with
  | none => rw [hA] at h; simp [stripV] at h
  | some a =>
    rw [hA] at h; simp only [stripV] at h
    cases hT : rowGet row "MarkerTitle" (some "") with
    | none => rw [hT] at h; simp [stripV] at h
    | some t =>
      rw [hT] at h; simp only [stripV] at h
      cases hX : rowGet row "MarkerText" (some "") with
      | none => rw [hX] at h; simp [stripV] at h
      | some x =>
        rw [hX] at h; simp only [stripV] at h
        cases hLat : parseCoord (rowGet row "Latitude" none) with
        | error e => rw [hLat] at h; exact absurd h (by simp)
        | ok lat =>
          rw [hLat] at h
          cases hLon : parseCoord (rowGet row "Longitude" none) with
          | error e => rw [hLon] at h; exact absurd h (by simp)
          | ok lon =>
            rw [hLon] at h
            simp only [Except.ok.injEq] at h
            exact ⟨a, t, x, lat, lon, rfl, rfl, rfl, rfl, rfl, h.symm⟩

theorem convert_ok_cons {row : Row} {rows : List Row} {recs : List MarkerRec}
    (h : convert (row :: rows) = .ok recs) :
    ∃ r rs, buildRec row = .ok r ∧ convert rows = .ok rs ∧ recs = r :: rs := by
  cases hb : buildRec row with
  | error e => simp [convert, hb] at h
  | ok r =>
    cases hc : convert rows with
    | error e => simp [convert, hb, hc] at h
    | ok rs =>
      simp [convert, hb, hc] at h
      exact ⟨r, rs, rfl, rfl, h.symm⟩

theorem convert_ok_length {rows : List Row} {recs : List MarkerRec}
    (h : convert rows = .ok recs) : recs.length = rows.length := by
  induction rows generalizing recs with
  | nil => simp [convert] at h; simp [h]
  | cons row rows ih =>
    obtain ⟨r, rs, _, hc, rfl⟩ := convert_ok_cons h
    simp [ih hc]

theorem convert_ok_get {rows : List Row} {recs : List MarkerRec}
    (h : convert rows = .ok recs) :
    ∀ i (hi : i < rows.length) (hr : i < recs.length),
      buildRec (rows.get ⟨i, hi⟩) = .ok (recs.get ⟨i, hr⟩) := by
  induction rows generalizing recs with
  | nil => intro i hi; simp at hi
  | cons row rows ih =>
    obtain ⟨r, rs, hb, hc, rfl⟩ := convert_ok_cons h
    intro i hi hr
    cases i with
    | zero => simpa using hb
    | succ j => exact ih hc j (by simpa using hi) (by simpa using hr)

theorem convert_ok_mem {rows : List Row} {recs : List MarkerRec}
    (h : convert rows = .ok recs) :
    ∀ row ∈ rows, ∃ r, buildRec row = .ok r := by
  induction rows generalizing recs with
  | nil => simp
  | cons row rows ih =>
    obtain ⟨r, rs, hb, hc, rfl⟩ := convert_ok_cons h
    intro row' hmem
    rcases List.mem_cons.mp hmem with rfl | hmem
    · exact ⟨r, hb⟩
    · exact ih hc row' hmem

theorem run_ok_files {rows : List Row} {out : RunOutput} (h : run rows = .ok out) :
    ∃ recs, convert rows = .ok recs ∧
      out.plainFile = render false (emitP (recordsJson recs) 0) ∧
      gunzip out.gzFile = render true (emitC (recordsJson recs)) := by
  cases hc : convert rows with
  | error e => simp [run, hc] at h
  | ok recs =>
    simp [run, hc] at h
    exact ⟨recs, rfl, by simp [← h], by simp [← h, gunzip]⟩

theorem run_err_of_convert_err {rows : List Row} {e : PyErr}
    (h : convert rows = .error e) : run rows = .error e := by
  simp [run, h]

theorem buildRec_err_of_strip_none {row : Row}
    (h : rowGet row "AtlasNumber" (some "") = none ∨
         rowGet row "MarkerTitle" (some "") = none ∨
         rowGet row "MarkerText" (some "") = none) :
    ∃ e, buildRec row = .error e := by
  cases hb : buildRec row with
  | error e => exact ⟨e, rfl⟩
  | ok r =>
    obtain ⟨a, t, x, _, _, hA, hT, hX, _⟩ := buildRec_ok_fields hb
    rcases h with h | h | h <;> simp_all

theorem buildRec_err_of_badCoord {row : Row} {s : String}
    (hcoord : rowGet row "Latitude" none = some s ∨ rowGet row "Longitude" none = some s)
    (hne : s ≠ "") (hbad : pyFloat s = none) :
    ∃ e, buildRec row = .error e := by
  cases hb : buildRec row with
  | error e => exact ⟨e, rfl⟩
  | ok r =>
    obtain ⟨a, t, x, lat, lon, hA, hT, hX, hLat, hLon, _⟩ := buildRec_ok_fields hb
    rcases hcoord with h | h
    · rw [h] at hLat; simp [parseCoord, hne, hbad] at hLat
    · rw [h] at hLon; simp [parseCoord, hne, hbad] at hLon

theorem convert_err_of_mem {rows : List Row} {row : Row} (hmem : row ∈ rows)
    (herr : ∃ e, buildRec row = .error e) :
    ∃ e, convert rows = .error e := by
  cases hc : convert rows with
  | error e => exact ⟨e, rfl⟩
  | ok recs =>
    obtain ⟨e, he⟩ := herr
    obtain ⟨r, hr⟩ := convert_ok_mem hc row hmem
    rw [he] at hr
    exact absurd hr (by simp)

/-! ## The claims -/

/-- C1: for every input data row `i`, the `i`-th output record's `id`
equals the fixed prefix `"tx-thc-"` concatenated with the row's
`AtlasNumber` value trimmed of surrounding whitespace, the empty string
standing in when the `AtlasNumber` column is absent. -/
theorem claim_C1 (rows : List Row) (recs : List MarkerRec)
    (h : convert rows = .ok recs) (i : Nat) (hi : i < rows.length)
    (hr : i < recs.length) :
    (recs.get ⟨i, hr⟩).id =
      "tx-thc-" ++ pyStrip ((rowGet (rows.get ⟨i, hi⟩) "AtlasNumber" (some "")).getD "") ∧
    ((rows.get ⟨i, hi⟩).lookup "AtlasNumber" = none → (recs.get ⟨i, hr⟩).id = "tx-thc-") := by
  obtain ⟨a, t, x, lat, lon, hA, _, _, _, _, hrec⟩ :=
    buildRec_ok_fields (convert_ok_get h i hi hr)
  constructor
  · rw [hrec, hA]; rfl
  · intro habs
    rw [rowGet, habs] at hA
    simp only [Option.getD] at hA
    injection hA with hA'
    subst hA'
    rw [hrec]
    show "tx-thc-" ++ pyStrip "" = "tx-thc-"
    decide

theorem claim_C1_witness :
    ([alamoRec].get ⟨0, by decide⟩).id =
      "tx-thc-" ++ pyStrip ((rowGet ([alamoRow].get ⟨0, by decide⟩) "AtlasNumber" (some "")).getD "") :=
  (claim_C1 [alamoRow] [alamoRec] (by decide) 0 (by decide) (by decide)).1

/-- C2: a completed run has exactly one output record per data row, in
input order, and both output files serialize that same ordered sequence. -/
theorem claim_C2 (rows : List Row) (recs : List MarkerRec)
    (h : convert rows = .ok recs) :
    recs.length = rows.length ∧
    (∀ i (hi : i < rows.length) (hr : i < recs.length),
        buildRec (rows.get ⟨i, hi⟩) = .ok (recs.get ⟨i, hr⟩)) ∧
    (∀ out, run rows = .ok out →
        out.plainFile = render false (emitP (recordsJson recs) 0) ∧
        gunzip out.gzFile = render true (emitC (recordsJson recs))) := by
  refine ⟨convert_ok_length h, convert_ok_get h, ?_⟩
  intro out hout
  obtain ⟨recs', hc', hp, hg⟩ := run_ok_files hout
  rw [h] at hc'
  cases hc'
  exact ⟨hp, hg⟩

theorem claim_C2_witness :
    [alamoRec].length = [alamoRow].length ∧
    (∀ i (hi : i < [alamoRow].length) (hr : i < [alamoRec].length),
        buildRec ([alamoRow].get ⟨i, hi⟩) = .ok ([alamoRec].get ⟨i, hr⟩)) ∧
    (∀ out, run [alamoRow] = .ok out →
        out.plainFile = render false (emitP (recordsJson [alamoRec]) 0) ∧
        gunzip out.gzFile = render true (emitC (recordsJson [alamoRec]))) :=
  claim_C2 [alamoRow] [alamoRec] (by decide)

/-- Forms `float` accepts beyond plain decimals — exponents, underscores,
a bare trailing dot, padding — are accepted by `pyFloat` with the exact
value, so such coordinates never abort the run. -/
theorem pyFloat_accepts_float_forms :
    pyFloat "1e5" = some ⟨100000, 0⟩ ∧
    pyFloat "2.5E-3" = some ⟨25, 4⟩ ∧
    pyFloat "1_0.5" = some ⟨105, 1⟩ ∧
    pyFloat "7." = some ⟨7, 0⟩ ∧
    pyFloat " +.5 " = some ⟨5, 1⟩ := by decide

/-- Strings `float` raises `ValueError` on are rejected by `pyFloat`:
misplaced underscores, a digitless exponent or dot, letters, inner
spaces. -/
theorem pyFloat_rejects_value_errors :
    pyFloat "1_.5" = none ∧ pyFloat "1__0" = none ∧ pyFloat "1e" = none ∧
    pyFloat "." = none ∧ pyFloat "N/A" = none ∧ pyFloat "1 2" = none := by decide

theorem nonFiniteForm_detects :
    nonFiniteForm " NaN " = true ∧ nonFiniteForm "-Infinity" = true ∧
    nonFiniteForm "inf" = true ∧ nonFiniteForm "N/A" = false ∧
    nonFiniteForm "1e5" = false := by decide

/-- C3: a row whose `Latitude` or `Longitude` is non-empty but rejected
by `float` makes the whole conversion loop abort with no per-row
recovery — and since the loop runs to completion before either output
file is opened, an aborted run produces no output at all.  The field is
confined to the domain on which `pyFloat` is an exact model of CPython
`float`: ASCII text that is not a non-finite `inf`/`infinity`/`nan`
form (those parse to values the exact-decimal float model cannot
carry). -/
theorem claim_C3 (rows : List Row) (row : Row) (hmem : row ∈ rows) (s : String)
    (hcoord : rowGet row "Latitude" none = some s ∨ rowGet row "Longitude" none = some s)
    (hne : s ≠ "") (_hascii : ∀ c ∈ s.data, c.toNat < 128)
    (_hfin : nonFiniteForm s = false) (hbad : pyFloat s = none) :
    (∃ e, convert rows = .error e) ∧ (∃ e, run rows = .error e) := by
  obtain ⟨e, he⟩ := convert_err_of_mem hmem (buildRec_err_of_badCoord hcoord hne hbad)
  exact ⟨⟨e, he⟩, ⟨e, run_err_of_convert_err he⟩⟩

theorem claim_C3_witness :
    (∃ e, convert [badLatRow] = .error e) ∧ (∃ e, run [badLatRow] = .error e) :=
  claim_C3 [badLatRow] badLatRow (by decide) "N/A" (Or.inl (by decide))
    (by decide) (by decide) (by decide) (by decide)

/-- C4: an empty or absent `Latitude`/`Longitude` yields the null
sentinel (not zero, and the key is never omitted from the serialized
`coordinates` object); a non-empty value that parses is passed through
as the parsed float, whatever its magnitude (no range validation). -/
theorem claim_C4 (row : Row) (r : MarkerRec) (h : buildRec row = .ok r) :
    ((rowGet row "Latitude" none = none ∨ rowGet row "Latitude" none = some "") →
        r.coordinates.latitude = none ∧ optNumJson r.coordinates.latitude = .null) ∧
    (∀ s f, rowGet row "Latitude" none = some s → s ≠ "" → pyFloat s = some f →
        r.coordinates.latitude = some f) ∧
    ((rowGet row "Longitude" none = none ∨ rowGet row "Longitude" none = some "") →
        r.coordinates.longitude = none ∧ optNumJson r.coordinates.longitude = .null) ∧
    (∀ s f, rowGet row "Longitude" none = some s → s ≠ "" → pyFloat s = some f →
        r.coordinates.longitude = some f) ∧
    jsonField (recJson r) "coordinates" =
      some (.obj (.cons "latitude" (optNumJson r.coordinates.latitude)
        (.cons "longitude" (optNumJson r.coordinates.longitude) .nil))) := by
  obtain ⟨a, t, x, lat, lon, hA, hT, hX, hLat, hLon, hrec⟩ := buildRec_ok_fields h
  subst hrec
  refine ⟨?_, ?_, ?_, ?_, rfl⟩
  · rintro (hv | hv) <;> rw [hv] at hLat <;> simp [parseCoord] at hLat <;>
      simp [← hLat, optNumJson]
  · intro s f hv hne hf
    rw [hv] at hLat
    simp [parseCoord, hne, hf] at hLat
    simp [← hLat]
  · rintro (hv | hv) <;> rw [hv] at hLon <;> simp [parseCoord] at hLon <;>
      simp [← hLon, optNumJson]
  · intro s f hv hne hf
    rw [hv] at hLon
    simp [parseCoord, hne, hf] at hLon
    simp [← hLon]

theorem claim_C4_witness :
    ∃ r, buildRec emptyLatRow = .ok r ∧
      (r.coordinates.latitude = none ∧ optNumJson r.coordinates.latitude = .null) ∧
      r.coordinates.longitude = some ⟨9995, 1⟩ := by
  have h : buildRec emptyLatRow =
      .ok (match buildRec emptyLatRow with
           | .ok r => r
           | .error _ => alamoRec) := by decide
  refine ⟨_, h, (claim_C4 emptyLatRow _ h).1 (Or.inr (by decide)), ?_⟩
  exact (claim_C4 emptyLatRow _ h).2.2.2.1 "999.5" ⟨9995, 1⟩ (by decide) (by decide) (by decide)

/-- C5: surrounding whitespace is trimmed exactly for `AtlasNumber` (in
`id`), `MarkerTitle` and `MarkerText`; `date_installed`, `city`, `county`
and the `source_id` inside `source` are passed through exactly as read. -/
theorem claim_C5 (row : Row) (r : MarkerRec) (h : buildRec row = .ok r) :
    (∀ s, rowGet row "AtlasNumber" (some "") = some s → r.id = "tx-thc-" ++ pyStrip s) ∧
    (∀ s, rowGet row "MarkerTitle" (some "") = some s → r.title = pyStrip s) ∧
    (∀ s, rowGet row "MarkerText" (some "") = some s → r.description = pyStrip s) ∧
    r.date_installed = rowGet row "YearMarkerErected" (some "") ∧
    r.address.city = rowGet row "City" (some "") ∧
    r.address.county = rowGet row "County" (some "") ∧
    (∀ e ∈ r.source, e.source_id = rowGet row "AtlasNumber" (some "")) := by
  obtain ⟨a, t, x, lat, lon, hA, hT, hX, hLat, hLon, hrec⟩ := buildRec_ok_fields h
  subst hrec
  refine ⟨?_, ?_, ?_, rfl, rfl, rfl, ?_⟩
  · intro s hs; rw [hA] at hs; cases hs; rfl
  · intro s hs; rw [hT] at hs; cases hs; rfl
  · intro s hs; rw [hX] at hs; cases hs; rfl
  · intro e he; simp at he; simp [he]

theorem claim_C5_witness :
    (∀ s, rowGet alamoRow "AtlasNumber" (some "") = some s →
        alamoRec.id = "tx-thc-" ++ pyStrip s) ∧
    (∀ s, rowGet alamoRow "MarkerTitle" (some "") = some s →
        alamoRec.title = pyStrip s) ∧
    (∀ s, rowGet alamoRow "MarkerText" (some "") = some s →
        alamoRec.description = pyStrip s) ∧
    alamoRec.date_installed = rowGet alamoRow "YearMarkerErected" (some "") ∧
    alamoRec.address.city = rowGet alamoRow "City" (some "") ∧
    alamoRec.address.county = rowGet alamoRow "County" (some "") ∧
    (∀ e ∈ alamoRec.source, e.source_id = rowGet alamoRow "AtlasNumber" (some "")) :=
  claim_C5 alamoRow alamoRec (by decide)

/-- C6: `source` is a one-element sequence whose `name` and `url` are the
fixed THC constants and whose `source_id` is the raw, untrimmed
`AtlasNumber` value — while `id` is built from the trimmed form of that
same value. -/
theorem claim_C6 (row : Row) (r : MarkerRec) (h : buildRec row = .ok r) :
    r.source = [{ name := "Texas Historical Commission"
                  url := "https://atlas.thc.texas.gov/Data/DataDownload"
                  source_id := rowGet row "AtlasNumber" (some "") }] ∧
    (∀ s, rowGet row "AtlasNumber" (some "") = some s →
        r.id = "tx-thc-" ++ pyStrip s) := by
  obtain ⟨a, t, x, lat, lon, hA, hT, hX, hLat, hLon, hrec⟩ := buildRec_ok_fields h
  subst hrec
  refine ⟨rfl, ?_⟩
  intro s hs; rw [hA] at hs; cases hs; rfl

theorem claim_C6_witness :
    ∃ r, buildRec paddedAtlasRow = .ok r ∧
      r.source = [{ name := "Texas Historical Commission"
                    url := "https://atlas.thc.texas.gov/Data/DataDownload"
                    source_id := rowGet paddedAtlasRow "AtlasNumber" (some "") }] ∧
      r.id = "tx-thc-" ++ pyStrip " 77 " := by
  have h : buildRec paddedAtlasRow =
      .ok (match buildRec paddedAtlasRow with
           | .ok r => r
           | .error _ => alamoRec) := by decide
  refine ⟨_, h, (claim_C6 paddedAtlasRow _ h).1, ?_⟩
  exact (claim_C6 paddedAtlasRow _ h).2 " 77 " (by decide)

/-- C7: every record carries the schema's constants (`images = []`,
`tags = []`, the type string, confidence `0.9`, state `"TX"`), and the
spec's Alamo scenario row yields exactly the enumerated record. -/
theorem claim_C7 :
    (∀ (row : Row) (r : MarkerRec), buildRec row = .ok r →
        r.images = [] ∧ r.tags = [] ∧ r.type = "state marker (TX)" ∧
        r.confidence = ⟨9, 1⟩ ∧ r.address.state = "TX") ∧
    buildRec alamoRow = .ok alamoRec := by
  constructor
  · intro row r h
    obtain ⟨a, t, x, lat, lon, _, _, _, _, _, hrec⟩ := buildRec_ok_fields h
    subst hrec
    exact ⟨rfl, rfl, rfl, rfl, rfl⟩
  · decide

theorem claim_C7_witness :
    alamoRec.images = [] ∧ alamoRec.tags = [] ∧
    alamoRec.type = "state marker (TX)" ∧ alamoRec.confidence = ⟨9, 1⟩ ∧
    alamoRec.address.state = "TX" :=
  claim_C7.1 alamoRow alamoRec (by decide)

/-- C9: the converter is a function of the input rows alone (two runs on
identical input produce identical output, bytes included), and every
serialized record lists its keys in the one fixed schema order. -/
theorem claim_C9 (rows₁ rows₂ : List Row) (h : rows₁ = rows₂) :
    run rows₁ = run rows₂ ∧
    (∀ recs, convert rows₁ = .ok recs → ∀ r ∈ recs,
        objKeys (recJson r) =
          ["id", "title", "description", "date_installed", "coordinates",
           "address", "images", "source", "type", "tags", "confidence"]) := by
  subst h
  exact ⟨rfl, fun recs _ r _ => rfl⟩

theorem claim_C9_witness :
    run [alamoRow] = run [alamoRow] ∧
    objKeys (recJson alamoRec) =
      ["id", "title", "description", "date_installed", "coordinates",
       "address", "images", "source", "type", "tags", "confidence"] := by
  have h := claim_C9 [alamoRow] [alamoRow] rfl
  exact ⟨h.1, h.2 [alamoRec] (by decide) alamoRec (by decide)⟩

theorem lookup_cons_self (k : String) (b : Option String) (es : Row) :
    List.lookup k ((k, b) :: es) = some b := by
  rw [List.lookup]
  simp

theorem lookup_cons_ne (f g : String) (b : Option String) (es : Row) (h : f ≠ g) :
    List.lookup f ((g, b) :: es) = List.lookup f es := by
  have hfg : (f == g) = false := by simp [h]
  rw [List.lookup, hfg]

theorem lookup_zip_repl (fs : List String) (f : String) (h : f ∈ fs) :
    List.lookup f (fs.zip (List.replicate fs.length (none : Option String))) =
      some none := by
  induction fs with
  | nil => simp at h
  | cons g gs ih =>
    rw [List.length_cons, List.replicate_succ, List.zip_cons_cons]
    by_cases hg : f = g
    · subst hg; exact lookup_cons_self ..
    · rw [lookup_cons_ne _ _ _ _ hg]
      exact ih ((List.mem_cons.mp h).resolve_left hg)

theorem mkRow_nil_vals (fs : List String) :
    mkRow fs [] = fs.zip (List.replicate fs.length none) := by
  simp [mkRow]

theorem mkRow_cons (g : String) (gs : List String) (v : String) (vs : List String) :
    mkRow (g :: gs) (v :: vs) = (g, some v) :: mkRow gs vs := by
  simp [mkRow, List.zip_cons_cons, Nat.succ_sub_succ]

/-- Rows shorter than the header: the missing trailing columns read back
as the `None` sentinel, never as the empty string. -/
theorem mkRow_short_lookup (fs vs : List String) (f : String)
    (hdrop : f ∈ fs.drop vs.length) (htake : f ∉ fs.take vs.length) :
    (mkRow fs vs).lookup f = some none := by
  induction vs generalizing fs with
  | nil =>
    rw [mkRow_nil_vals]
    exact lookup_zip_repl fs f (by simpa using hdrop)
  | cons v vs ih =>
    cases fs with
    | nil => simp at hdrop
    | cons g gs =>
      simp only [List.length_cons, List.take_succ_cons, List.mem_cons, not_or] at htake
      simp only [List.length_cons, List.drop_succ_cons] at hdrop
      rw [mkRow_cons, lookup_cons_ne _ _ _ _ htake.1]
      exact ih gs hdrop htake.2

/-- A column name absent from the header is absent from every assembled
row, so `row.get(name, default)` falls back to the default. -/
theorem mkRow_lookup_not_mem (fs vs : List String) (f : String) (hf : f ∉ fs) :
    (mkRow fs vs).lookup f = none := by
  induction fs generalizing vs with
  | nil => simp [mkRow]
  | cons g gs ih =>
    simp only [List.mem_cons, not_or] at hf
    cases vs with
    | nil =>
      rw [mkRow_nil_vals, List.length_cons, List.replicate_succ,
        List.zip_cons_cons, lookup_cons_ne _ _ _ _ hf.1, ← mkRow_nil_vals]
      exact ih [] hf.2
    | cons v vs' =>
      rw [mkRow_cons, lookup_cons_ne _ _ _ _ hf.1]
      exact ih vs' hf.2

/-- C10: `csv.DictReader` pads a short data row with the `None` sentinel
(not the empty string); `.strip()` on such a `None` in `AtlasNumber`,
`MarkerTitle` or `MarkerText` aborts the whole run, while a `None`
`YearMarkerErected`, `City` or `County` flows through as a JSON null; the
empty-string default only ever applies to columns absent from the
header. -/
theorem claim_C10 :
    (∀ vs : List String, ∀ f ∈ stdHeader.drop vs.length,
        f ∉ stdHeader.take vs.length → (mkRow stdHeader vs).lookup f = some none) ∧
    (∀ (row : Row) (rows : List Row), row ∈ rows →
        (rowGet row "AtlasNumber" (some "") = none ∨
         rowGet row "MarkerTitle" (some "") = none ∨
         rowGet row "MarkerText" (some "") = none) →
        ∃ e, run rows = .error e) ∧
    (∀ (row : Row) (r : MarkerRec), buildRec row = .ok r →
        (rowGet row "YearMarkerErected" (some "") = none →
            r.date_installed = none ∧ optStrJson r.date_installed = .null) ∧
        (rowGet row "City" (some "") = none →
            r.address.city = none ∧ optStrJson r.address.city = .null) ∧
        (rowGet row "County" (some "") = none →
            r.address.county = none ∧ optStrJson r.address.county = .null)) ∧
    (∀ (fs vs : List String) (f : String), f ∉ fs →
        rowGet (mkRow fs vs) f (some "") = some "") := by
  refine ⟨fun vs f h1 h2 => mkRow_short_lookup stdHeader vs f h1 h2, ?_, ?_, ?_⟩
  · intro row rows hmem hnone
    obtain ⟨e, he⟩ := convert_err_of_mem hmem (buildRec_err_of_strip_none hnone)
    exact ⟨e, run_err_of_convert_err he⟩
  · intro row r h
    obtain ⟨a, t, x, lat, lon, hA, hT, hX, hLat, hLon, hrec⟩ := buildRec_ok_fields h
    subst hrec
    exact ⟨fun hv => ⟨hv, by simp [hv, optStrJson]⟩,
           fun hv => ⟨hv, by simp [hv, optStrJson]⟩,
           fun hv => ⟨hv, by simp [hv, optStrJson]⟩⟩
  · intro fs vs f hf
    rw [rowGet, mkRow_lookup_not_mem fs vs f hf]
    rfl

theorem claim_C10_witness :
    (mkRow stdHeader ["5535"]).lookup "MarkerText" = some none ∧
    (∃ e, run [mkRow stdHeader ["5535"]] = .error e) ∧
    (∃ r, buildRec (mkRow stdHeader ["5535", "T", "D"]) = .ok r ∧
        r.date_installed = none ∧ optStrJson r.date_installed = .null) ∧
    rowGet (mkRow stdHeader ["x"]) "Foo" (some "") = some "" := by
  refine ⟨claim_C10.1 ["5535"] "MarkerText" (by decide) (by decide),
          claim_C10.2.1 (mkRow stdHeader ["5535"]) [mkRow stdHeader ["5535"]]
            (by decide) (Or.inr (Or.inl (by decide))),
          ?_, claim_C10.2.2.2 stdHeader ["x"] "Foo" (by decide)⟩
  have h3 : buildRec (mkRow stdHeader ["5535", "T", "D"]) =
      .ok (match buildRec (mkRow stdHeader ["5535", "T", "D"]) with
           | .ok r => r
           | .error _ => alamoRec) := by decide
  exact ⟨_, h3, (claim_C10.2.2.1 _ _ h3).1 (by decide)⟩

/-! ## Round-trip groundwork: canonical floats -/

theorem pyNormalize_norm (e : Nat) : ∀ m : Int, (pyNormalize m e).norm = true := by
  induction e with
  | zero => intro m; simp [pyNormalize, PyFloat.norm]
  | succ e ih =>
    intro m
    rw [pyNormalize]
    by_cases h : m % 10 = 0
    · rw [if_pos h]; exact ih _
    · rw [if_neg h]; simp [PyFloat.norm, h]

theorem pyFromParts_norm (neg : Bool) (M nF : Nat) (E : Int) :
    (pyFromParts neg M nF E).norm = true := by
  unfold pyFromParts
  split
  · exact pyNormalize_norm _ _
  · exact pyNormalize_norm _ _

theorem pyFloatCore_norm {neg : Bool} {l : List Char} {f : PyFloat}
    (h : pyFloatCore neg l = some f) : f.norm = true := by
  simp only [pyFloatCore, Option.bind_eq_some] at h
  obtain ⟨sig, hs, h⟩ := h
  obtain ⟨ex, he, h⟩ := h
  cases hrest : ex.2 with
  | nil =>
    rw [hrest] at h
    injection h with h
    rw [← h]
    exact pyFromParts_norm _ _ _ _
  | cons a b =>
    rw [hrest] at h
    exact absurd h (by simp)

theorem pyFloat_norm {s : String} {f : PyFloat} (h : pyFloat s = some f) :
    f.norm = true := by
  unfold pyFloat at h
  split at h
  · exact pyFloatCore_norm h
  · exact pyFloatCore_norm h
  · exact pyFloatCore_norm h

theorem parseCoord_norm {v : Option String} {c : Option PyFloat}
    (h : parseCoord v = .ok c) : ∀ f, c = some f → f.norm = true := by
  intro f hc
  subst hc
  cases v with
  | none => simp [parseCoord] at h
  | some s =>
    by_cases hs : s = ""
    · simp [parseCoord, hs] at h
    · simp only [parseCoord, if_neg hs] at h
      cases hp : pyFloat s with
      | none => rw [hp] at h; exact absurd h (by simp)
      | some g =>
        rw [hp] at h
        simp only [Except.ok.injEq, Option.some.injEq] at h
        rw [← h]
        exact pyFloat_norm hp

theorem buildRec_normalized {row : Row} {r : MarkerRec}
    (h : buildRec row = .ok r) : recNormalized r := by
  obtain ⟨a, t, x, lat, lon, hA, hT, hX, hLat, hLon, hrec⟩ := buildRec_ok_fields h
  subst hrec
  exact ⟨parseCoord_norm hLat, parseCoord_norm hLon, rfl⟩

theorem convert_mem_buildRec {rows : List Row} {recs : List MarkerRec}
    (h : convert rows = .ok recs) :
    ∀ r ∈ recs, ∃ row, buildRec row = .ok r := by
  induction rows generalizing recs with
  | nil => simp [convert] at h; subst h; simp
  | cons row rows ih =>
    obtain ⟨r, rs, hb, hc, rfl⟩ := convert_ok_cons h
    intro r' hmem
    rcases List.mem_cons.mp hmem with rfl | hmem
    · exact ⟨row, hb⟩
    · exact ih hc r' hmem

theorem jnorm_optStr (v : Option String) : jnorm (optStrJson v) = true := by
  cases v <;> rfl

theorem jnorm_optNum {v : Option PyFloat} (h : ∀ f, v = some f → f.norm = true) :
    jnorm (optNumJson v) = true := by
  cases v with
  | none => rfl
  | some f => exact h f rfl

theorem jnorm_strList (l : List String) : jnormList (strListJson l) = true := by
  induction l with
  | nil => rfl
  | cons s r ih => simp [strListJson, jnormList, jnorm, ih]

theorem jnorm_srcList (l : List SourceEntry) : jnormList (srcListJson l) = true := by
  induction l with
  | nil => rfl
  | cons e r ih =>
    simp [srcListJson, jnormList, ih, srcJson, jnorm, jnormFields, jnorm_optStr]

theorem jnorm_recJson {r : MarkerRec} (h : recNormalized r) :
    jnorm (recJson r) = true := by
  obtain ⟨h1, h2, h3⟩ := h
  simp [recJson, jnorm, jnormFields, jnormList, jnorm_optStr, jnorm_strList,
    jnorm_srcList, jnorm_optNum h1, jnorm_optNum h2, h3]

theorem jnorm_recordsJson {recs : List MarkerRec}
    (h : ∀ r ∈ recs, recNormalized r) : jnorm (recordsJson recs) = true := by
  suffices hl : jnormList (recsJson recs) = true by simpa [recordsJson, jnorm]
  induction recs with
  | nil => rfl
  | cons r rs ih =>
    simp only [recsJson, jnormList, Bool.and_eq_true]
    exact ⟨jnorm_recJson (h r (by simp)), ih (fun x hx => h x (by simp [hx]))⟩

/-! ## Round-trip groundwork: decimal digits -/

theorem digitVal_hexDigitCh : ∀ d, d < 10 → digitVal (hexDigitCh d) = d := by decide

theorem isDigitCh_hexDigitCh : ∀ d, d < 10 → isDigitCh (hexDigitCh d) = true := by decide

theorem natDigitsRev_eq : ∀ fuel n : Nat, n ≤ fuel →
    natDigitsRev fuel n = (Nat.digits 10 n).map hexDigitCh := by
  intro fuel
  induction fuel with
  | zero =>
    intro n hn
    interval_cases n
    simp [natDigitsRev]
  | succ fuel ih =>
    intro n hn
    rw [natDigitsRev]
    by_cases h0 : n = 0
    · subst h0; simp
    · rw [if_neg h0,
        Nat.digits_def' (by norm_num : (1 : ℕ) < 10) (Nat.pos_of_ne_zero h0),
        List.map_cons]
      congr 1
      have := Nat.div_lt_self (Nat.pos_of_ne_zero h0) (by norm_num : 1 < 10)
      exact ih (n / 10) (by omega)

theorem digitsVal_concat (xs : List Char) (c : Char) :
    digitsVal (xs ++ [c]) = digitsVal xs * 10 + digitVal c := by
  simp [digitsVal, List.foldl_append]

theorem digitsVal_revMap (ds : List Nat) (hd : ∀ d ∈ ds, d < 10) :
    digitsVal ((ds.map hexDigitCh).reverse) = Nat.ofDigits 10 ds := by
  induction ds with
  | nil => simp [digitsVal, Nat.ofDigits]
  | cons d ds ih =>
    rw [List.map_cons, List.reverse_cons, digitsVal_concat,
      ih (fun x hx => hd x (List.mem_cons_of_mem _ hx)),
      digitVal_hexDigitCh d (hd d (List.mem_cons_self _ _)), Nat.ofDigits_cons]
    ring

theorem digitsVal_natDigits (a : Nat) : digitsVal (natDigits a) = a := by
  by_cases h : a = 0
  · subst h; decide
  · rw [natDigits, if_neg h, natDigitsRev_eq a a le_rfl,
      digitsVal_revMap _ (fun d hd => Nat.digits_lt_base (by norm_num) hd)]
    exact_mod_cast Nat.ofDigits_digits 10 a

theorem natDigits_all_digits (a : Nat) : ∀ c ∈ natDigits a, isDigitCh c = true := by
  by_cases h : a = 0
  · subst h; decide
  · rw [natDigits, if_neg h, natDigitsRev_eq a a le_rfl]
    intro c hc
    rw [List.mem_reverse] at hc
    obtain ⟨d, hd, rfl⟩ := List.mem_map.mp hc
    exact isDigitCh_hexDigitCh d (Nat.digits_lt_base (by norm_num) hd)

theorem natDigits_ne_nil (a : Nat) : natDigits a ≠ [] := by
  by_cases h : a = 0
  · subst h; decide
  · rw [natDigits, if_neg h, natDigitsRev_eq a a le_rfl]
    simp [Nat.digits_ne_nil_iff_ne_zero, h]

theorem digitsVal_replicate_zero (k : Nat) (xs : List Char) :
    digitsVal (List.replicate k '0' ++ xs) = digitsVal xs := by
  induction k with
  | zero => simp
  | succ k ih =>
    rw [List.replicate_succ, List.cons_append]
    show List.foldl (fun a c => a * 10 + digitVal c) (0 * 10 + digitVal '0')
      (List.replicate k '0' ++ xs) = digitsVal xs
    have : 0 * 10 + digitVal '0' = 0 := by decide
    rw [this]
    exact ih

/-! ## Round-trip of the number serialization -/

theorem takeWhile_append_all {p : Char → Bool} {xs ys : List Char}
    (h : ∀ c ∈ xs, p c = true) :
    (xs ++ ys).takeWhile p = xs ++ ys.takeWhile p := by
  induction xs with
  | nil => simp
  | cons c cs ih =>
    rw [List.cons_append, List.takeWhile_cons_of_pos (h c (by simp)),
      ih (fun d hd => h d (by simp [hd])), List.cons_append]

theorem dropWhile_append_all {p : Char → Bool} {xs ys : List Char}
    (h : ∀ c ∈ xs, p c = true) :
    (xs ++ ys).dropWhile p = ys.dropWhile p := by
  induction xs with
  | nil => simp
  | cons c cs ih =>
    rw [List.cons_append, List.dropWhile_cons_of_pos (h c (by simp)),
      ih (fun d hd => h d (by simp [hd]))]

theorem pyNormalize_one (m : Int) :
    pyNormalize m 1 = if m % 10 = 0 then ⟨m / 10, 0⟩ else ⟨m, 1⟩ := rfl

theorem parseNumMag_digits_dot (A B : List Char) (hA : A ≠ [])
    (hAd : ∀ c ∈ A, isDigitCh c = true) (hB : B ≠ [])
    (hBd : ∀ c ∈ B, isDigitCh c = true) :
    parseNumMag (A ++ '.' :: B) = some (digitsVal (A ++ B), B.length) := by
  have hip : (A ++ '.' :: B).takeWhile isDigitCh = A := by
    rw [takeWhile_append_all hAd, List.takeWhile_cons_of_neg (by decide)]
    simp
  have hrest : (A ++ '.' :: B).dropWhile isDigitCh = '.' :: B := by
    rw [dropWhile_append_all hAd, List.dropWhile_cons_of_neg (by decide)]
  have hAe : A.isEmpty = false := by
    cases A with
    | nil => exact absurd rfl hA
    | cons c cs => rfl
  have hBe : B.isEmpty = false := by
    cases B with
    | nil => exact absurd rfl hB
    | cons c cs => rfl
  simp only [parseNumMag, hip, hrest, hAe]
  simp [hBe, List.all_eq_true.mpr hBd]

theorem parseNumToken_pos (A B : List Char) (hA : A ≠ [])
    (hAd : ∀ c ∈ A, isDigitCh c = true) (hB : B ≠ [])
    (hBd : ∀ c ∈ B, isDigitCh c = true) :
    parseNumToken (A ++ '.' :: B) =
      some (pyNormalize (digitsVal (A ++ B) : Int) B.length) := by
  cases A with
  | nil => exact absurd rfl hA
  | cons c cs =>
    have hc : isDigitCh c = true := hAd c (by simp)
    rw [List.cons_append]
    simp only [parseNumToken]
    rw [if_neg (fun h => by rw [h] at hc; exact absurd hc (by decide)),
      ← List.cons_append, parseNumMag_digits_dot _ B hA hAd hB hBd]
    rfl

theorem parseNumToken_neg (A B : List Char) (hA : A ≠ [])
    (hAd : ∀ c ∈ A, isDigitCh c = true) (hB : B ≠ [])
    (hBd : ∀ c ∈ B, isDigitCh c = true) :
    parseNumToken ('-' :: (A ++ '.' :: B)) =
      some (pyNormalize (-(digitsVal (A ++ B) : Int)) B.length) := by
  simp only [parseNumToken]
  rw [if_pos trivial, parseNumMag_digits_dot A B hA hAd hB hBd]
  rfl

theorem parseNumToken_renderFloat (f : PyFloat) (hn : f.norm = true) :
    parseNumToken (renderFloat f) = some f := by
  obtain ⟨m, e⟩ := f
  simp only [PyFloat.norm] at hn
  by_cases he : e = 0
  · subst he
    have ha := natDigits_all_digits m.natAbs
    have h0 : digitVal '0' = 0 := by decide
    have hval : digitsVal (natDigits m.natAbs ++ ['0']) = m.natAbs * 10 := by
      rw [digitsVal_concat, digitsVal_natDigits, h0]
      omega
    have hone : ∀ c ∈ ['0'], isDigitCh c = true := by decide
    by_cases hm : m < 0
    · have hr : renderFloat ⟨m, 0⟩ = '-' :: (natDigits m.natAbs ++ '.' :: ['0']) := by
        simp [renderFloat, hm]
      rw [hr, parseNumToken_neg _ _ (natDigits_ne_nil _) ha (by simp) hone, hval]
      show some (pyNormalize (-(m.natAbs * 10 : Nat) : Int) 1) = _
      rw [pyNormalize_one, if_pos (by omega)]
      congr 2
      omega
    · have hr : renderFloat ⟨m, 0⟩ = natDigits m.natAbs ++ '.' :: ['0'] := by
        simp [renderFloat, hm]
      rw [hr, parseNumToken_pos _ _ (natDigits_ne_nil _) ha (by simp) hone, hval]
      show some (pyNormalize ((m.natAbs * 10 : Nat) : Int) 1) = _
      rw [pyNormalize_one, if_pos (by omega)]
      congr 2
      omega
  · have hmod : m % 10 ≠ 0 := by
      intro hm0
      rw [show (e == 0) = false by simpa using he,
        show (m % 10 != 0) = false by simpa using hm0] at hn
      exact absurd hn (by decide)
    obtain ⟨k, rfl⟩ : ∃ k, e = k + 1 := ⟨e - 1, by omega⟩
    set a := m.natAbs with haa
    set ds0 := natDigits a with hds0
    set ds : List Char :=
      if ds0.length ≤ k + 1 then List.replicate (k + 1 + 1 - ds0.length) '0' ++ ds0
      else ds0 with hds
    have hdsd : ∀ c ∈ ds, isDigitCh c = true := by
      rw [hds]
      split
      · intro c hc
        rcases List.mem_append.mp hc with hc | hc
        · rw [List.eq_of_mem_replicate hc]; decide
        · exact natDigits_all_digits a c hc
      · exact natDigits_all_digits a
    have hlen : k + 1 < ds.length := by
      rw [hds]
      split
      · rename_i hle
        have h1 : ds0.length ≠ 0 := by
          intro h
          exact natDigits_ne_nil a (List.eq_nil_of_length_eq_zero h)
        simp [List.length_append, List.length_replicate]
        omega
      · rename_i hgt
        omega
    have hA : ds.take (ds.length - (k + 1)) ≠ [] := by
      intro h
      have := congrArg List.length h
      simp [List.length_take] at this
      omega
    have hB : ds.drop (ds.length - (k + 1)) ≠ [] := by
      intro h
      have := congrArg List.length h
      simp [List.length_drop] at this
      omega
    have hBlen : (ds.drop (ds.length - (k + 1))).length = k + 1 := by
      rw [List.length_drop]
      omega
    have hAB : ds.take (ds.length - (k + 1)) ++ ds.drop (ds.length - (k + 1)) = ds :=
      List.take_append_drop _ _
    have hdsval : digitsVal ds = a := by
      rw [hds]
      split
      · rw [digitsVal_replicate_zero, hds0, digitsVal_natDigits]
      · rw [hds0, digitsVal_natDigits]
    have hstable : ∀ m' : Int, m' % 10 ≠ 0 → pyNormalize m' (k + 1) = ⟨m', k + 1⟩ := by
      intro m' hm'
      rw [pyNormalize, if_neg hm']
    by_cases hm : m < 0
    · have hr : renderFloat ⟨m, k + 1⟩ =
          '-' :: (ds.take (ds.length - (k + 1)) ++ '.' :: ds.drop (ds.length - (k + 1))) := by
        simp only [renderFloat, if_pos hm, if_neg he]
        rw [← haa, ← hds0, ← hds]
        simp
      rw [hr, parseNumToken_neg _ _ hA
        (fun c hc => hdsd c (List.take_subset _ _ hc)) hB
        (fun c hc => hdsd c (List.drop_subset _ _ hc)), hAB, hdsval, hBlen]
      rw [hstable _ (by omega)]
      congr 2
      omega
    · have hr : renderFloat ⟨m, k + 1⟩ =
          ds.take (ds.length - (k + 1)) ++ '.' :: ds.drop (ds.length - (k + 1)) := by
        simp only [renderFloat, if_neg hm, if_neg he]
        rw [← haa, ← hds0, ← hds]
        simp
      rw [hr, parseNumToken_pos _ _ hA
        (fun c hc => hdsd c (List.take_subset _ _ hc)) hB
        (fun c hc => hdsd c (List.drop_subset _ _ hc)), hAB, hdsval, hBlen]
      rw [hstable _ (by omega)]
      congr 2
      omega

/-! ## Round-trip of the string escaping -/

theorem hexVal_hexDigitCh : ∀ d, d < 16 → hexVal (hexDigitCh d) = some d := by decide

theorem hex4Val_toHex4 {n : Nat} (h : n < 65536) :
    hex4Val (hexDigitCh (n / 4096 % 16)) (hexDigitCh (n / 256 % 16))
      (hexDigitCh (n / 16 % 16)) (hexDigitCh (n % 16)) = some n := by
  unfold hex4Val
  rw [hexVal_hexDigitCh _ (by omega), hexVal_hexDigitCh _ (by omega),
    hexVal_hexDigitCh _ (by omega), hexVal_hexDigitCh _ (by omega)]
  exact congrArg some (by omega)

theorem char_toNat_lt (c : Char) : c.toNat < 1114112 := by
  have h := c.valid
  rcases h with h | ⟨h1, h2⟩
  · exact Nat.lt_trans h (by norm_num)
  · exact h2

theorem char_not_surrogate (c : Char) : c.toNat < 55296 ∨ 57343 < c.toNat := by
  have h := c.valid
  rcases h with h | ⟨h1, h2⟩
  · exact Or.inl h
  · exact Or.inr h1

theorem escapeChar_length_pos (ascii : Bool) (c : Char) :
    0 < (escapeChar ascii c).length := by
  unfold escapeChar
  repeat' split
  all_goals simp

theorem escapeStr_length_ge (ascii : Bool) (s : List Char) :
    s.length ≤ (escapeStr ascii s).length := by
  induction s with
  | nil => simp [escapeStr]
  | cons c s ih =>
    rw [escapeStr, List.length_append, List.length_cons]
    have := escapeChar_length_pos ascii c
    omega

theorem decodeU_single (h1 h2 h3 h4 : Char) (n : Nat) (tail : List Char)
    (hh : hex4Val h1 h2 h3 h4 = some n) (hs : ¬(55296 ≤ n ∧ n < 57344)) :
    decodeU (h1 :: h2 :: h3 :: h4 :: tail) = some (Char.ofNat n, tail) := by
  rw [decodeU, hh]
  simp only [Option.some_bind]
  rw [if_neg (by omega), if_neg (by omega)]

theorem decodeU_pair (h1 h2 h3 h4 g1 g2 g3 g4 : Char) (hi lo : Nat)
    (tail : List Char)
    (hh : hex4Val h1 h2 h3 h4 = some hi) (hg : hex4Val g1 g2 g3 g4 = some lo)
    (hhr : 55296 ≤ hi ∧ hi < 56320) (hlr : 56320 ≤ lo ∧ lo < 57344) :
    decodeU (h1 :: h2 :: h3 :: h4 :: '\\' :: 'u' :: g1 :: g2 :: g3 :: g4 :: tail) =
      some (Char.ofNat (65536 + (hi - 55296) * 1024 + (lo - 56320)), tail) := by
  rw [decodeU, hh]
  simp only [Option.some_bind]
  rw [if_pos hhr]
  show (if '\\' = '\\' ∧ 'u' = 'u' then _ else none) = _
  rw [if_pos ⟨rfl, rfl⟩, hg]
  simp only [Option.some_bind]
  rw [if_pos hlr]

theorem decodeU_bmp (n : Nat) (hn : n < 65536) (hs : ¬(55296 ≤ n ∧ n < 57344))
    (tail : List Char) :
    decodeU (toHex4 n ++ tail) = some (Char.ofNat n, tail) := by
  rw [toHex4]
  simp only [List.cons_append, List.nil_append]
  exact decodeU_single _ _ _ _ n tail (hex4Val_toHex4 hn) hs

theorem decodeU_surrogate (t : Nat) (h1 : 65536 ≤ t) (h2 : t < 1114112)
    (tail : List Char) :
    decodeU (toHex4 (55296 + (t - 65536) / 1024) ++
      ('\\' :: 'u' :: (toHex4 (56320 + (t - 65536) % 1024) ++ tail))) =
      some (Char.ofNat t, tail) := by
  have hq1 : (t - 65536) / 1024 < 1024 := by omega
  have hr1 : (t - 65536) % 1024 < 1024 := by omega
  rw [toHex4, toHex4]
  simp only [List.cons_append, List.nil_append]
  rw [decodeU_pair _ _ _ _ _ _ _ _ _ _ _
    (hex4Val_toHex4 (show 55296 + (t - 65536) / 1024 < 65536 by omega))
    (hex4Val_toHex4 (show 56320 + (t - 65536) % 1024 < 65536 by omega))
    (by omega) (by omega)]
  have harith : 65536 + (55296 + (t - 65536) / 1024 - 55296) * 1024 +
      (56320 + (t - 65536) % 1024 - 56320) = t := by omega
  rw [harith]

theorem scanStr_escape (ascii : Bool) :
    ∀ (s rest : List Char) (fuel : Nat), s.length < fuel →
      scanStr fuel (escapeStr ascii s ++ '"' :: rest) = some (s, rest) := by
  intro s
  induction s with
  | nil =>
    intro rest fuel hf
    obtain ⟨fuel, rfl⟩ : ∃ k, fuel = k + 1 := ⟨fuel - 1, by omega⟩
    simp [escapeStr, scanStr]
  | cons c s ih =>
    intro rest fuel hf
    obtain ⟨fuel, rfl⟩ : ∃ k, fuel = k + 1 := ⟨fuel - 1, by omega⟩
    have hfs : s.length < fuel := by
      simp only [List.length_cons] at hf
      omega
    rw [escapeStr, List.append_assoc]
    have htc : scanStr fuel (escapeStr ascii s ++ '"' :: rest) = some (s, rest) :=
      ih rest fuel hfs
    by_cases hq : c = '"'
    · subst hq
      rw [show escapeChar ascii '"' = ['\\', '"'] from rfl]
      simp [scanStr, decodeEsc, escCharOf, htc]
    · by_cases hb : c = '\\'
      · subst hb
        rw [show escapeChar ascii '\\' = ['\\', '\\'] from rfl]
        simp [scanStr, decodeEsc, escCharOf, htc]
      · by_cases h8 : c = '\x08'
        · subst h8
          rw [show escapeChar ascii '\x08' = ['\\', 'b'] from rfl]
          simp [scanStr, decodeEsc, escCharOf, htc]
        · by_cases h9 : c = '\t'
          · subst h9
            rw [show escapeChar ascii '\t' = ['\\', 't'] from rfl]
            simp [scanStr, decodeEsc, escCharOf, htc]
          · by_cases hna : c = '\n'
            · subst hna
              rw [show escapeChar ascii '\n' = ['\\', 'n'] from rfl]
              simp [scanStr, decodeEsc, escCharOf, htc]
            · by_cases hc12 : c = '\x0c'
              · subst hc12
                rw [show escapeChar ascii '\x0c' = ['\\', 'f'] from rfl]
                simp [scanStr, decodeEsc, escCharOf, htc]
              · by_cases hr13 : c = '\r'
                · subst hr13
                  rw [show escapeChar ascii '\r' = ['\\', 'r'] from rfl]
                  simp [scanStr, decodeEsc, escCharOf, htc]
                · by_cases hctl : c.toNat < 32
                  · rw [show escapeChar ascii c = '\\' :: 'u' :: toHex4 c.toNat from by
                      simp [escapeChar, hq, hb, h8, h9, hna, hc12, hr13, hctl]]
                    simp only [List.cons_append]
                    rw [scanStr, if_neg (by decide), if_pos rfl, decodeEsc,
                      if_pos rfl, decodeU_bmp c.toNat (by omega) (by omega)]
                    simp [htc]
                  · by_cases hhi : ascii = true ∧ 126 < c.toNat
                    · by_cases hbmp : c.toNat < 65536
                      · rw [show escapeChar ascii c = '\\' :: 'u' :: toHex4 c.toNat from by
                          rw [escapeChar, if_neg hq, if_neg hb, if_neg h8, if_neg h9,
                            if_neg hna, if_neg hc12, if_neg hr13, if_neg (by omega),
                            if_pos (by simp [hhi.1, hhi.2]), if_pos hbmp]]
                        have hns := char_not_surrogate c
                        simp only [List.cons_append]
                        rw [scanStr, if_neg (by decide), if_pos rfl, decodeEsc,
                          if_pos rfl, decodeU_bmp c.toNat hbmp (by omega)]
                        simp [htc]
                      · rw [show escapeChar ascii c =
                            ('\\' :: 'u' :: toHex4 (55296 + (c.toNat - 65536) / 1024)) ++
                              ('\\' :: 'u' :: toHex4 (56320 + (c.toNat - 65536) % 1024)) from by
                          rw [escapeChar, if_neg hq, if_neg hb, if_neg h8, if_neg h9,
                            if_neg hna, if_neg hc12, if_neg hr13, if_neg (by omega),
                            if_pos (by simp [hhi.1, hhi.2]), if_neg hbmp]]
                        have hlt := char_toNat_lt c
                        simp only [List.cons_append, List.append_assoc]
                        rw [scanStr, if_neg (by decide), if_pos rfl, decodeEsc,
                          if_pos rfl, decodeU_surrogate c.toNat (by omega) hlt]
                        simp [htc]
                    · rw [show escapeChar ascii c = [c] from by
                        rw [escapeChar, if_neg hq, if_neg hb, if_neg h8, if_neg h9,
                          if_neg hna, if_neg hc12, if_neg hr13, if_neg (by omega),
                          if_neg (by
                            intro hcon
                            rw [Bool.and_eq_true] at hcon
                            exact hhi ⟨hcon.1, by simpa using hcon.2⟩)]]
                      simp only [List.cons_append, List.nil_append]
                      rw [scanStr]
                      rw [if_neg hq]
                      rw [if_neg hb]
                      rw [if_neg (show ¬c.toNat < 32 from hctl)]
                      rw [htc]
                      simp

/-! ## Round-trip of the tokenizer -/

theorem wsCh_of_wsOnly {w : List Char} (hw : wsOnly w = true) :
    ∀ c ∈ w, wsCh c = true := by
  intro c hc
  have h := (List.all_eq_true.mp hw) c hc
  simp only [Bool.or_eq_true, decide_eq_true_eq] at h
  rcases h with rfl | rfl <;> decide

theorem lexF_wsDrop (fuel : Nat) (w s : List Char)
    (hw : ∀ c ∈ w, wsCh c = true) : lexF fuel (w ++ s) = lexF fuel s := by
  cases fuel with
  | zero => rfl
  | succ f => rw [lexF, lexF, dropWhile_append_all hw]

theorem natDigits_numCh (a : Nat) : ∀ c ∈ natDigits a, numCh c = true := by
  intro c hc
  have := natDigits_all_digits a c hc
  simp [numCh, this]

theorem renderFloat_ne_nil (f : PyFloat) : renderFloat f ≠ [] := by
  intro h
  simp only [renderFloat] at h
  have hl := congrArg List.length h
  split at hl <;>
    simp only [List.length_append, List.length_cons, List.length_nil] at hl <;>
    omega

theorem renderFloat_all_numCh (f : PyFloat) :
    ∀ c ∈ renderFloat f, numCh c = true := by
  intro c hc
  simp only [renderFloat] at hc
  have hsgn : ∀ d ∈ (if f.mantissa < 0 then ['-'] else ([] : List Char)),
      numCh d = true := by
    split <;> intro d hd <;> simp at hd
    rw [hd]; decide
  have hds : ∀ d ∈ (if (natDigits f.mantissa.natAbs).length ≤ f.exponent then
      List.replicate (f.exponent + 1 - (natDigits f.mantissa.natAbs).length) '0' ++
        natDigits f.mantissa.natAbs
    else natDigits f.mantissa.natAbs), numCh d = true := by
    split <;> intro d hd
    · rcases List.mem_append.mp hd with hd | hd
      · rw [List.eq_of_mem_replicate hd]; decide
      · exact natDigits_numCh _ d hd
    · exact natDigits_numCh _ d hd
  split at hc
  · rcases List.mem_append.mp hc with hc | hc
    · rcases List.mem_append.mp hc with hc | hc
      · exact hsgn c hc
      · exact natDigits_numCh _ c hc
    · simp at hc
      rcases hc with rfl | rfl <;> decide
  · rcases List.mem_append.mp hc with hc | hc
    · rcases List.mem_append.mp hc with hc | hc
      · exact hsgn c hc
      · exact hds c (List.take_subset _ _ hc)
    · rcases List.mem_cons.mp hc with rfl | hc
      · decide
      · exact hds c (List.drop_subset _ _ hc)

theorem renderTok_ne_nil (ascii : Bool) (t : Tok) : renderTok ascii t ≠ [] := by
  cases t <;> simp [renderTok]
  exact renderFloat_ne_nil _

theorem render_length_ge (ascii : Bool) (segs : List Seg) :
    (segToks segs).length ≤ (render ascii segs).length := by
  induction segs with
  | nil => simp [segToks, render]
  | cons seg rest ih =>
    cases seg with
    | ws w => simp only [render, renderSeg, segToks, List.length_append]; omega
    | tok t =>
      have := renderTok_ne_nil ascii t
      have hpos : 0 < (renderTok ascii t).length := by
        cases h : renderTok ascii t with
        | nil => exact absurd h this
        | cons a l => simp
      simp only [render, renderSeg, segToks, List.length_append, List.length_cons]
      omega

theorem startsSafe_head (ascii : Bool) (segs : List Seg)
    (hs : startsSafe segs = true) :
    ∀ c, (render ascii segs).head? = some c → numCh c = false := by
  induction segs with
  | nil => intro c hc; simp [render] at hc
  | cons seg rest ih =>
    cases seg with
    | ws w =>
      cases w with
      | nil =>
        rw [show render ascii (.ws [] :: rest) = render ascii rest from by
          simp [render, renderSeg]]
        exact ih (by simpa [startsSafe] using hs)
      | cons c' w' =>
        intro c hc
        simp only [render, renderSeg, List.cons_append, List.head?] at hc
        cases hc
        simpa [startsSafe] using hs
    | tok t =>
      intro c hc
      cases t with
      | tnum f => simp [startsSafe, tokHeadSafe] at hs
      | tstr s =>
        simp only [render, renderSeg, renderTok, List.cons_append, List.head?] at hc
        cases hc; decide
      | tnull =>
        simp only [render, renderSeg, renderTok, List.cons_append, List.head?] at hc
        cases hc; decide
      | lbrace =>
        simp only [render, renderSeg, renderTok, List.cons_append, List.head?] at hc
        cases hc; decide
      | rbrace =>
        simp only [render, renderSeg, renderTok, List.cons_append, List.head?] at hc
        cases hc; decide
      | lbrack =>
        simp only [render, renderSeg, renderTok, List.cons_append, List.head?] at hc
        cases hc; decide
      | rbrack =>
        simp only [render, renderSeg, renderTok, List.cons_append, List.head?] at hc
        cases hc; decide
      | colon =>
        simp only [render, renderSeg, renderTok, List.cons_append, List.head?] at hc
        cases hc; decide
      | comma =>
        simp only [render, renderSeg, renderTok, List.cons_append, List.head?] at hc
        cases hc; decide

theorem lexF_cons (k : Nat) (c0 : Char) (r : List Char) (hws : wsCh c0 = false) :
    lexF (k + 1) (c0 :: r) =
      (if c0 = '\x7b' then (lexF k r).map (.lbrace :: ·)
       else if c0 = '\x7d' then (lexF k r).map (.rbrace :: ·)
       else if c0 = '[' then (lexF k r).map (.lbrack :: ·)
       else if c0 = ']' then (lexF k r).map (.rbrack :: ·)
       else if c0 = ':' then (lexF k r).map (.colon :: ·)
       else if c0 = ',' then (lexF k r).map (.comma :: ·)
       else if c0 = '"' then
         (scanStr (r.length + 1) r).bind (fun p =>
           (lexF k p.2).map (.tstr ⟨p.1⟩ :: ·))
       else if c0 = 'n' then
         (lexNull r).bind (fun r2 => (lexF k r2).map (.tnull :: ·))
       else if numCh c0 then
         (parseNumToken ((c0 :: r).takeWhile numCh)).bind (fun f =>
           (lexF k ((c0 :: r).dropWhile numCh)).map (.tnum f :: ·))
       else none) := by
  rw [lexF, List.dropWhile_cons_of_neg (by simp [hws])]

theorem wsCh_false_of_numCh {c : Char} (h : numCh c = true) : wsCh c = false := by
  cases hw : wsCh c
  · rfl
  · exfalso
    simp only [wsCh, Bool.or_eq_true, decide_eq_true_eq] at hw
    rcases hw with ((rfl | rfl) | rfl) | rfl <;> exact absurd h (by decide)

theorem segsWF_cons_ws {w : List Char} {rest : List Seg}
    (h : segsWF (.ws w :: rest) = true) : wsOnly w = true ∧ segsWF rest = true := by
  simpa [segsWF, Bool.and_eq_true] using h

theorem segsWF_cons_tok {t : Tok} {rest : List Seg}
    (h : segsWF (.tok t :: rest) = true) :
    (isNumTok t = true → startsSafe rest = true) ∧ segsWF rest = true := by
  rw [show segsWF (.tok t :: rest) = ((!isNumTok t || startsSafe rest) && segsWF rest)
      from rfl, Bool.and_eq_true, Bool.or_eq_true] at h
  refine ⟨fun hn => ?_, h.2⟩
  rcases h.1 with h1 | h1
  · rw [hn] at h1
    exact absurd h1 (by decide)
  · exact h1

theorem segsNorm_cons_tail {seg : Seg} {rest : List Seg}
    (h : segsNorm (seg :: rest) = true) : segsNorm rest = true := by
  cases seg with
  | ws w => simpa [segsNorm] using h
  | tok t =>
    cases t with
    | tnum f =>
      rw [show segsNorm (.tok (.tnum f) :: rest) = (f.norm && segsNorm rest)
          from rfl, Bool.and_eq_true] at h
      exact h.2
    | lbrace => simpa [segsNorm] using h
    | rbrace => simpa [segsNorm] using h
    | lbrack => simpa [segsNorm] using h
    | rbrack => simpa [segsNorm] using h
    | colon => simpa [segsNorm] using h
    | comma => simpa [segsNorm] using h
    | tnull => simpa [segsNorm] using h
    | tstr s => simpa [segsNorm] using h

theorem segsNorm_cons_num {f : PyFloat} {rest : List Seg}
    (h : segsNorm (.tok (.tnum f) :: rest) = true) : f.norm = true := by
  rw [show segsNorm (.tok (.tnum f) :: rest) = (f.norm && segsNorm rest)
      from rfl, Bool.and_eq_true] at h
  exact h.1

/-- The master tokenizer round trip: lexing the rendering of a
well-formed segment stream recovers exactly its tokens. -/
theorem lexF_render (ascii : Bool) (segs : List Seg) :
    ∀ fuel, segsWF segs = true → segsNorm segs = true →
      (segToks segs).length < fuel →
      lexF fuel (render ascii segs) = some (segToks segs) := by
  induction segs with
  | nil =>
    intro fuel _ _ hf
    obtain ⟨k, rfl⟩ : ∃ k, fuel = k + 1 := ⟨fuel - 1, by omega⟩
    simp [render, lexF, segToks]
  | cons seg rest ih =>
    intro fuel hwf hnorm hf
    cases seg with
    | ws w =>
      obtain ⟨hw, hwf2⟩ := segsWF_cons_ws hwf
      rw [show render ascii (.ws w :: rest) = w ++ render ascii rest from by
        simp [render, renderSeg]]
      rw [lexF_wsDrop fuel w _ (wsCh_of_wsOnly hw)]
      exact ih fuel hwf2 (segsNorm_cons_tail hnorm) hf
    | tok t =>
      obtain ⟨hsafe, hwf2⟩ := segsWF_cons_tok hwf
      obtain ⟨k, rfl⟩ : ∃ k, fuel = k + 1 := ⟨fuel - 1, by omega⟩
      have hf2 : (segToks rest).length < k := by
        rw [show segToks (Seg.tok t :: rest) = t :: segToks rest from rfl,
          List.length_cons] at hf
        omega
      have htail := ih k hwf2 (segsNorm_cons_tail hnorm) hf2
      cases t with
      | lbrace =>
        rw [show render ascii (.tok .lbrace :: rest) = '\x7b' :: render ascii rest
          from by simp [render, renderSeg, renderTok]]
        rw [lexF_cons k _ _ (by decide), if_pos rfl, htail]
        rfl
      | rbrace =>
        rw [show render ascii (.tok .rbrace :: rest) = '\x7d' :: render ascii rest
          from by simp [render, renderSeg, renderTok]]
        rw [lexF_cons k _ _ (by decide), if_neg (by decide), if_pos rfl, htail]
        rfl
      | lbrack =>
        rw [show render ascii (.tok .lbrack :: rest) = '[' :: render ascii rest
          from by simp [render, renderSeg, renderTok]]
        rw [lexF_cons k _ _ (by decide), if_neg (by decide), if_neg (by decide),
          if_pos rfl, htail]
        rfl
      | rbrack =>
        rw [show render ascii (.tok .rbrack :: rest) = ']' :: render ascii rest
          from by simp [render, renderSeg, renderTok]]
        rw [lexF_cons k _ _ (by decide), if_neg (by decide), if_neg (by decide),
          if_neg (by decide), if_pos rfl, htail]
        rfl
      | colon =>
        rw [show render ascii (.tok .colon :: rest) = ':' :: render ascii rest
          from by simp [render, renderSeg, renderTok]]
        rw [lexF_cons k _ _ (by decide), if_neg (by decide), if_neg (by decide),
          if_neg (by decide), if_neg (by decide), if_pos rfl, htail]
        rfl
      | comma =>
        rw [show render ascii (.tok .comma :: rest) = ',' :: render ascii rest
          from by simp [render, renderSeg, renderTok]]
        rw [lexF_cons k _ _ (by decide), if_neg (by decide), if_neg (by decide),
          if_neg (by decide), if_neg (by decide), if_neg (by decide), if_pos rfl,
          htail]
        rfl
      | tstr s =>
        rw [show render ascii (.tok (.tstr s) :: rest) =
            '"' :: (escapeStr ascii s.data ++ ('"' :: render ascii rest)) from by
          simp [render, renderSeg, renderTok]]
        have hlen : s.data.length <
            (escapeStr ascii s.data ++ '"' :: render ascii rest).length + 1 := by
          have := escapeStr_length_ge ascii s.data
          rw [List.length_append]
          omega
        rw [lexF_cons k _ _ (by decide), if_neg (by decide), if_neg (by decide),
          if_neg (by decide), if_neg (by decide), if_neg (by decide),
          if_neg (by decide), if_pos rfl,
          scanStr_escape ascii s.data (render ascii rest) _ hlen]
        simp [htail, segToks]
      | tnull =>
        rw [show render ascii (.tok .tnull :: rest) =
            'n' :: 'u' :: 'l' :: 'l' :: render ascii rest from by
          simp [render, renderSeg, renderTok]]
        rw [lexF_cons k _ _ (by decide), if_neg (by decide), if_neg (by decide),
          if_neg (by decide), if_neg (by decide), if_neg (by decide),
          if_neg (by decide), if_neg (by decide), if_pos rfl,
          show lexNull ('u' :: 'l' :: 'l' :: render ascii rest) =
            some (render ascii rest) from rfl]
        simp [htail, segToks]
      | tnum f =>
        have hnf : f.norm = true := segsNorm_cons_num hnorm
        have hss : startsSafe rest = true := hsafe rfl
        rw [show render ascii (.tok (.tnum f) :: rest) =
            renderFloat f ++ render ascii rest from by
          simp [render, renderSeg, renderTok]]
        have htake : (render ascii rest).takeWhile numCh = [] := by
          cases hrd : render ascii rest with
          | nil => rfl
          | cons d ds =>
            rw [List.takeWhile_cons_of_neg]
            have := startsSafe_head ascii rest hss d (by rw [hrd]; rfl)
            simp [this]
        have hdrop : (render ascii rest).dropWhile numCh = render ascii rest := by
          cases hrd : render ascii rest with
          | nil => rfl
          | cons d ds =>
            rw [List.dropWhile_cons_of_neg]
            have := startsSafe_head ascii rest hss d (by rw [hrd]; rfl)
            simp [this]
        cases hrf : renderFloat f with
        | nil => exact absurd hrf (renderFloat_ne_nil f)
        | cons c0 rts =>
          have hallnum : ∀ c ∈ renderFloat f, numCh c = true := renderFloat_all_numCh f
          have hc0num : numCh c0 = true := hallnum c0 (by rw [hrf]; simp)
          have hne : ∀ ch : Char, numCh ch = false → ¬ c0 = ch := by
            intro ch hch he
            rw [he] at hc0num
            rw [hc0num] at hch
            exact absurd hch (by simp)
          rw [List.cons_append,
            lexF_cons k c0 _ (wsCh_false_of_numCh hc0num),
            if_neg (hne _ (by decide)), if_neg (hne _ (by decide)),
            if_neg (hne _ (by decide)), if_neg (hne _ (by decide)),
            if_neg (hne _ (by decide)), if_neg (hne _ (by decide)),
            if_neg (hne _ (by decide)), if_neg (hne _ (by decide)),
            if_pos hc0num, ← List.cons_append, ← hrf,
            takeWhile_append_all hallnum,
            dropWhile_append_all hallnum, htake, hdrop, List.append_nil,
            parseNumToken_renderFloat f hnf]
          simp [htail, segToks]

/-! ## Round-trip of the token parser -/

mutual
theorem feedJson (J : Json) (ts : List Tok) (stk : List Frame) (mode : PMode)
    (hm : mode = .pv ∨ mode = .pvz) :
    stepAll (jsonToks J ++ ts) mode stk =
      stepAll ts (closeValue J stk).1 (closeValue J stk).2 := by
  cases J with
  | null => rcases hm with rfl | rfl <;> simp [jsonToks, stepAll, step]
  | num f => rcases hm with rfl | rfl <;> simp [jsonToks, stepAll, step]
  | str s => rcases hm with rfl | rfl <;> simp [jsonToks, stepAll, step]
  | arr es =>
    cases es with
    | nil =>
      rcases hm with rfl | rfl <;>
        simp [jsonToks, listToks, stepAll, step, closeValue, revListJson]
    | cons x tl =>
      have h1 : jsonToks (.arr (.cons x tl)) ++ ts =
          .lbrack :: (jsonToks x ++ (listSepToks tl ++ (.rbrack :: ts))) := by
        simp [jsonToks, listToks, List.append_assoc]
      have h2 : stepAll
          (Tok.lbrack :: (jsonToks x ++ (listSepToks tl ++ (.rbrack :: ts)))) mode stk =
          stepAll (jsonToks x ++ (listSepToks tl ++ (.rbrack :: ts))) .pvz
            (.farr [] :: stk) := by
        rcases hm with rfl | rfl <;> simp [stepAll, step]
      rw [h1, h2, feedJson x _ _ .pvz (Or.inr rfl),
        show closeValue x (.farr [] :: stk) = (.pcomma, .farr [x] :: stk) from rfl]
      exact feedList tl ts stk [x]
  | obj fs =>
    cases fs with
    | nil =>
      rcases hm with rfl | rfl <;>
        simp [jsonToks, fieldToks, stepAll, step, closeValue, revFieldsJson]
    | cons k v tl =>
      have h1 : jsonToks (.obj (.cons k v tl)) ++ ts =
          .lbrace :: .tstr k :: .colon ::
            (jsonToks v ++ (fieldSepToks tl ++ (.rbrace :: ts))) := by
        simp [jsonToks, fieldToks, List.append_assoc]
      have h2 : stepAll
          (Tok.lbrace :: .tstr k :: .colon ::
            (jsonToks v ++ (fieldSepToks tl ++ (.rbrace :: ts)))) mode stk =
          stepAll (jsonToks v ++ (fieldSepToks tl ++ (.rbrace :: ts))) .pv
            (.fobj [] k :: stk) := by
        rcases hm with rfl | rfl <;> simp [stepAll, step]
      rw [h1, h2, feedJson v _ _ .pv (Or.inl rfl),
        show closeValue v (.fobj [] k :: stk) =
          (.pcomma, .fobj [(k, v)] "" :: stk) from rfl]
      exact feedFields tl ts stk [(k, v)]

theorem feedList (tl : JsonList) (ts : List Tok) (stk : List Frame)
    (acc : List Json) :
    stepAll (listSepToks tl ++ .rbrack :: ts) .pcomma (.farr acc :: stk) =
      stepAll ts (closeValue (.arr (revListJson acc tl)) stk).1
        (closeValue (.arr (revListJson acc tl)) stk).2 := by
  cases tl with
  | nil => simp [listSepToks, stepAll, step]
  | cons y tl2 =>
    have h1 : listSepToks (.cons y tl2) ++ .rbrack :: ts =
        .comma :: (jsonToks y ++ (listSepToks tl2 ++ (.rbrack :: ts))) := by
      simp [listSepToks, List.append_assoc]
    have h2 : stepAll
        (Tok.comma :: (jsonToks y ++ (listSepToks tl2 ++ (.rbrack :: ts))))
          .pcomma (.farr acc :: stk) =
        stepAll (jsonToks y ++ (listSepToks tl2 ++ (.rbrack :: ts))) .pv
          (.farr acc :: stk) := by
      simp [stepAll, step]
    rw [h1, h2, feedJson y _ _ .pv (Or.inl rfl),
      show closeValue y (.farr acc :: stk) =
        (.pcomma, .farr (y :: acc) :: stk) from rfl]
    exact feedList tl2 ts stk (y :: acc)

theorem feedFields (tl : JsonFields) (ts : List Tok) (stk : List Frame)
    (acc : List (String × Json)) :
    stepAll (fieldSepToks tl ++ .rbrace :: ts) .pcomma (.fobj acc "" :: stk) =
      stepAll ts (closeValue (.obj (revFieldsJson acc tl)) stk).1
        (closeValue (.obj (revFieldsJson acc tl)) stk).2 := by
  cases tl with
  | nil => simp [fieldSepToks, stepAll, step]
  | cons k2 v2 tl2 =>
    have h1 : fieldSepToks (.cons k2 v2 tl2) ++ .rbrace :: ts =
        .comma :: .tstr k2 :: .colon ::
          (jsonToks v2 ++ (fieldSepToks tl2 ++ (.rbrace :: ts))) := by
      simp [fieldSepToks, List.append_assoc]
    have h2 : stepAll
        (Tok.comma :: .tstr k2 :: .colon ::
          (jsonToks v2 ++ (fieldSepToks tl2 ++ (.rbrace :: ts))))
          .pcomma (.fobj acc "" :: stk) =
        stepAll (jsonToks v2 ++ (fieldSepToks tl2 ++ (.rbrace :: ts))) .pv
          (.fobj acc k2 :: stk) := by
      simp [stepAll, step]
    rw [h1, h2, feedJson v2 _ _ .pv (Or.inl rfl),
      show closeValue v2 (.fobj acc k2 :: stk) =
        (.pcomma, .fobj ((k2, v2) :: acc) "" :: stk) from rfl]
    exact feedFields tl2 ts stk ((k2, v2) :: acc)
end

/-- Parsing the token stream of a JSON value recovers the value. -/
theorem parseToks_jsonToks (J : Json) : parseToks (jsonToks J) = some J := by
  have h := feedJson J [] [] .pv (Or.inl rfl)
  rw [List.append_nil] at h
  rw [parseToks, h]
  rfl

/-! ## The emitters produce well-formed streams carrying the JSON tokens -/

theorem segToks_append (a b : List Seg) :
    segToks (a ++ b) = segToks a ++ segToks b := by
  induction a with
  | nil => simp [segToks]
  | cons seg r ih =>
    cases seg with
    | tok t => simp [segToks, ih]
    | ws w => simp [segToks, ih]

theorem wsOnly_nlws (d : Nat) : wsOnly (nlws d) = true := by
  simp only [wsOnly, nlws, List.all_cons, Bool.and_eq_true, List.all_eq_true]
  refine ⟨by decide, ?_⟩
  intro c hc
  rw [List.eq_of_mem_replicate hc]
  decide

theorem wsOnly_space : wsOnly [' '] = true := by decide

mutual
theorem segToks_emitP (J : Json) (d : Nat) : segToks (emitP J d) = jsonToks J := by
  cases J with
  | null => rfl
  | num f => rfl
  | str s => rfl
  | arr es =>
    cases es with
    | nil => rfl
    | cons x tl =>
      simp [emitP, jsonToks, listToks, segToks, segToks_append,
        segToks_emitP x (d + 1), segToks_emitPList tl (d + 1), List.append_assoc]
  | obj fs =>
    cases fs with
    | nil => rfl
    | cons k v tl =>
      simp [emitP, jsonToks, fieldToks, segToks, segToks_append,
        segToks_emitP v (d + 1), segToks_emitPFields tl (d + 1), List.append_assoc]

theorem segToks_emitPList (tl : JsonList) (d : Nat) :
    segToks (emitPListSep tl d) = listSepToks tl := by
  cases tl with
  | nil => rfl
  | cons x tl2 =>
    simp [emitPListSep, listSepToks, segToks, segToks_append,
      segToks_emitP x d, segToks_emitPList tl2 d]

theorem segToks_emitPFields (tl : JsonFields) (d : Nat) :
    segToks (emitPFieldSep tl d) = fieldSepToks tl := by
  cases tl with
  | nil => rfl
  | cons k v tl2 =>
    simp [emitPFieldSep, fieldSepToks, segToks, segToks_append,
      segToks_emitP v d, segToks_emitPFields tl2 d]
end

mutual
theorem segToks_emitC (J : Json) : segToks (emitC J) = jsonToks J := by
  cases J with
  | null => rfl
  | num f => rfl
  | str s => rfl
  | arr es =>
    cases es with
    | nil => rfl
    | cons x tl =>
      simp [emitC, jsonToks, listToks, segToks, segToks_append,
        segToks_emitC x, segToks_emitCList tl, List.append_assoc]
  | obj fs =>
    cases fs with
    | nil => rfl
    | cons k v tl =>
      simp [emitC, jsonToks, fieldToks, segToks, segToks_append,
        segToks_emitC v, segToks_emitCFields tl, List.append_assoc]

theorem segToks_emitCList (tl : JsonList) :
    segToks (emitCListSep tl) = listSepToks tl := by
  cases tl with
  | nil => rfl
  | cons x tl2 =>
    simp [emitCListSep, listSepToks, segToks, segToks_append,
      segToks_emitC x, segToks_emitCList tl2]

theorem segToks_emitCFields (tl : JsonFields) :
    segToks (emitCFieldSep tl) = fieldSepToks tl := by
  cases tl with
  | nil => rfl
  | cons k v tl2 =>
    simp [emitCFieldSep, fieldSepToks, segToks, segToks_append,
      segToks_emitC v, segToks_emitCFields tl2]
end

mutual
theorem emitP_wf (J : Json) (d : Nat) (tail : List Seg)
    (h1 : segsWF tail = true) (h2 : startsSafe tail = true) :
    segsWF (emitP J d ++ tail) = true := by
  cases J with
  | null => simpa [emitP, segsWF, isNumTok] using h1
  | num f => simp [emitP, segsWF, isNumTok, h1, h2]
  | str s => simpa [emitP, segsWF, isNumTok] using h1
  | arr es =>
    cases es with
    | nil => simpa [emitP, segsWF, isNumTok] using h1
    | cons x tl =>
      have htail2 : segsWF ([Seg.ws (nlws d), Seg.tok .rbrack] ++ tail) = true := by
        simp [segsWF, isNumTok, wsOnly_nlws, h1]
      have hsafe2 : startsSafe ([Seg.ws (nlws d), Seg.tok .rbrack] ++ tail) = true := by
        simp [startsSafe, nlws, numCh, isDigitCh]
      obtain ⟨hw1, hs1⟩ := emitPList_wf tl (d + 1)
        ([Seg.ws (nlws d), Seg.tok .rbrack] ++ tail) htail2 hsafe2
      have hx := emitP_wf x (d + 1) _ hw1 hs1
      simp only [emitP, List.cons_append, List.append_assoc, List.nil_append] at *
      simp [segsWF, isNumTok, wsOnly_nlws, hx]
  | obj fs =>
    cases fs with
    | nil => simpa [emitP, segsWF, isNumTok] using h1
    | cons k v tl =>
      have htail2 : segsWF ([Seg.ws (nlws d), Seg.tok .rbrace] ++ tail) = true := by
        simp [segsWF, isNumTok, wsOnly_nlws, h1]
      have hsafe2 : startsSafe ([Seg.ws (nlws d), Seg.tok .rbrace] ++ tail) = true := by
        simp [startsSafe, nlws, numCh, isDigitCh]
      obtain ⟨hw1, hs1⟩ := emitPFields_wf tl (d + 1)
        ([Seg.ws (nlws d), Seg.tok .rbrace] ++ tail) htail2 hsafe2
      have hx := emitP_wf v (d + 1) _ hw1 hs1
      simp only [emitP, List.cons_append, List.append_assoc, List.nil_append] at *
      simp [segsWF, isNumTok, tokHeadSafe, wsOnly_nlws, wsOnly_space, hx]

theorem emitPList_wf (tl : JsonList) (d : Nat) (tail : List Seg)
    (h1 : segsWF tail = true) (h2 : startsSafe tail = true) :
    segsWF (emitPListSep tl d ++ tail) = true ∧
      startsSafe (emitPListSep tl d ++ tail) = true := by
  cases tl with
  | nil => exact ⟨by simpa [emitPListSep] using h1, by simpa [emitPListSep] using h2⟩
  | cons x tl2 =>
    obtain ⟨hw2, hs2⟩ := emitPList_wf tl2 d tail h1 h2
    have hx := emitP_wf x d _ hw2 hs2
    constructor
    · simp only [emitPListSep, List.cons_append, List.append_assoc]
      simp [segsWF, isNumTok, wsOnly_nlws, hx]
    · simp [emitPListSep, startsSafe, tokHeadSafe]

theorem emitPFields_wf (tl : JsonFields) (d : Nat) (tail : List Seg)
    (h1 : segsWF tail = true) (h2 : startsSafe tail = true) :
    segsWF (emitPFieldSep tl d ++ tail) = true ∧
      startsSafe (emitPFieldSep tl d ++ tail) = true := by
  cases tl with
  | nil => exact ⟨by simpa [emitPFieldSep] using h1, by simpa [emitPFieldSep] using h2⟩
  | cons k v tl2 =>
    obtain ⟨hw2, hs2⟩ := emitPFields_wf tl2 d tail h1 h2
    have hx := emitP_wf v d _ hw2 hs2
    constructor
    · simp only [emitPFieldSep, List.cons_append, List.append_assoc]
      simp [segsWF, isNumTok, wsOnly_nlws, wsOnly_space, hx]
    · simp [emitPFieldSep, startsSafe, tokHeadSafe]
end

mutual
theorem emitC_wf (J : Json) (tail : List Seg)
    (h1 : segsWF tail = true) (h2 : startsSafe tail = true) :
    segsWF (emitC J ++ tail) = true := by
  cases J with
  | null => simpa [emitC, segsWF, isNumTok] using h1
  | num f => simp [emitC, segsWF, isNumTok, h1, h2]
  | str s => simpa [emitC, segsWF, isNumTok] using h1
  | arr es =>
    cases es with
    | nil => simpa [emitC, segsWF, isNumTok] using h1
    | cons x tl =>
      have htail2 : segsWF ([Seg.tok .rbrack] ++ tail) = true := by
        simp [segsWF, isNumTok, h1]
      have hsafe2 : startsSafe ([Seg.tok .rbrack] ++ tail) = true := by
        simp [startsSafe, tokHeadSafe]
      obtain ⟨hw1, hs1⟩ := emitCList_wf tl ([Seg.tok .rbrack] ++ tail) htail2 hsafe2
      have hx := emitC_wf x _ hw1 hs1
      simp only [emitC, List.cons_append, List.append_assoc, List.nil_append] at *
      simp [segsWF, isNumTok, hx]
  | obj fs =>
    cases fs with
    | nil => simpa [emitC, segsWF, isNumTok] using h1
    | cons k v tl =>
      have htail2 : segsWF ([Seg.tok .rbrace] ++ tail) = true := by
        simp [segsWF, isNumTok, h1]
      have hsafe2 : startsSafe ([Seg.tok .rbrace] ++ tail) = true := by
        simp [startsSafe, tokHeadSafe]
      obtain ⟨hw1, hs1⟩ := emitCFields_wf tl ([Seg.tok .rbrace] ++ tail) htail2 hsafe2
      have hx := emitC_wf v _ hw1 hs1
      simp only [emitC, List.cons_append, List.append_assoc, List.nil_append] at *
      simp [segsWF, isNumTok, tokHeadSafe, wsOnly_space, hx]

theorem emitCList_wf (tl : JsonList) (tail : List Seg)
    (h1 : segsWF tail = true) (h2 : startsSafe tail = true) :
    segsWF (emitCListSep tl ++ tail) = true ∧
      startsSafe (emitCListSep tl ++ tail) = true := by
  cases tl with
  | nil => exact ⟨by simpa [emitCListSep] using h1, by simpa [emitCListSep] using h2⟩
  | cons x tl2 =>
    obtain ⟨hw2, hs2⟩ := emitCList_wf tl2 tail h1 h2
    have hx := emitC_wf x _ hw2 hs2
    constructor
    · simp only [emitCListSep, List.cons_append, List.append_assoc]
      simp [segsWF, isNumTok, wsOnly_space, hx]
    · simp [emitCListSep, startsSafe, tokHeadSafe]

theorem emitCFields_wf (tl : JsonFields) (tail : List Seg)
    (h1 : segsWF tail = true) (h2 : startsSafe tail = true) :
    segsWF (emitCFieldSep tl ++ tail) = true ∧
      startsSafe (emitCFieldSep tl ++ tail) = true := by
  cases tl with
  | nil => exact ⟨by simpa [emitCFieldSep] using h1, by simpa [emitCFieldSep] using h2⟩
  | cons k v tl2 =>
    obtain ⟨hw2, hs2⟩ := emitCFields_wf tl2 tail h1 h2
    have hx := emitC_wf v _ hw2 hs2
    constructor
    · simp only [emitCFieldSep, List.cons_append, List.append_assoc]
      simp [segsWF, isNumTok, wsOnly_space, hx]
    · simp [emitCFieldSep, startsSafe, tokHeadSafe]
end

theorem segsNorm_append_iff (a b : List Seg) :
    segsNorm (a ++ b) = (segsNorm a && segsNorm b) := by
  induction a with
  | nil => simp [segsNorm]
  | cons seg r ih =>
    cases seg with
    | ws w => simpa [segsNorm] using ih
    | tok t =>
      cases t with
      | tnum f => simp [segsNorm, ih, Bool.and_assoc]
      | lbrace => simpa [segsNorm] using ih
      | rbrace => simpa [segsNorm] using ih
      | lbrack => simpa [segsNorm] using ih
      | rbrack => simpa [segsNorm] using ih
      | colon => simpa [segsNorm] using ih
      | comma => simpa [segsNorm] using ih
      | tnull => simpa [segsNorm] using ih
      | tstr s => simpa [segsNorm] using ih

mutual
theorem emitP_norm (J : Json) (d : Nat) (hn : jnorm J = true) :
    segsNorm (emitP J d) = true := by
  cases J with
  | null => rfl
  | num f => simpa [emitP, segsNorm, jnorm] using hn
  | str s => rfl
  | arr es =>
    cases es with
    | nil => rfl
    | cons x tl =>
      rw [show jnorm (.arr (.cons x tl)) = (jnorm x && jnormList tl) from rfl,
        Bool.and_eq_true] at hn
      simp [emitP, segsNorm, segsNorm_append_iff, emitP_norm x (d + 1) hn.1,
        emitPList_norm tl (d + 1) hn.2]
  | obj fs =>
    cases fs with
    | nil => rfl
    | cons k v tl =>
      rw [show jnorm (.obj (.cons k v tl)) = (jnorm v && jnormFields tl) from rfl,
        Bool.and_eq_true] at hn
      simp [emitP, segsNorm, segsNorm_append_iff, emitP_norm v (d + 1) hn.1,
        emitPFields_norm tl (d + 1) hn.2]

theorem emitPList_norm (tl : JsonList) (d : Nat) (hn : jnormList tl = true) :
    segsNorm (emitPListSep tl d) = true := by
  cases tl with
  | nil => rfl
  | cons x tl2 =>
    rw [show jnormList (.cons x tl2) = (jnorm x && jnormList tl2) from rfl,
      Bool.and_eq_true] at hn
    simp [emitPListSep, segsNorm, segsNorm_append_iff, emitP_norm x d hn.1,
      emitPList_norm tl2 d hn.2]

theorem emitPFields_norm (tl : JsonFields) (d : Nat) (hn : jnormFields tl = true) :
    segsNorm (emitPFieldSep tl d) = true := by
  cases tl with
  | nil => rfl
  | cons k v tl2 =>
    rw [show jnormFields (.cons k v tl2) = (jnorm v && jnormFields tl2) from rfl,
      Bool.and_eq_true] at hn
    simp [emitPFieldSep, segsNorm, segsNorm_append_iff, emitP_norm v d hn.1,
      emitPFields_norm tl2 d hn.2]
end

mutual
theorem emitC_norm (J : Json) (hn : jnorm J = true) :
    segsNorm (emitC J) = true := by
  cases J with
  | null => rfl
  | num f => simpa [emitC, segsNorm, jnorm] using hn
  | str s => rfl
  | arr es =>
    cases es with
    | nil => rfl
    | cons x tl =>
      rw [show jnorm (.arr (.cons x tl)) = (jnorm x && jnormList tl) from rfl,
        Bool.and_eq_true] at hn
      simp [emitC, segsNorm, segsNorm_append_iff, emitC_norm x hn.1,
        emitCList_norm tl hn.2]
  | obj fs =>
    cases fs with
    | nil => rfl
    | cons k v tl =>
      rw [show jnorm (.obj (.cons k v tl)) = (jnorm v && jnormFields tl) from rfl,
        Bool.and_eq_true] at hn
      simp [emitC, segsNorm, segsNorm_append_iff, emitC_norm v hn.1,
        emitCFields_norm tl hn.2]

theorem emitCList_norm (tl : JsonList) (hn : jnormList tl = true) :
    segsNorm (emitCListSep tl) = true := by
  cases tl with
  | nil => rfl
  | cons x tl2 =>
    rw [show jnormList (.cons x tl2) = (jnorm x && jnormList tl2) from rfl,
      Bool.and_eq_true] at hn
    simp [emitCListSep, segsNorm, segsNorm_append_iff, emitC_norm x hn.1,
      emitCList_norm tl2 hn.2]

theorem emitCFields_norm (tl : JsonFields) (hn : jnormFields tl = true) :
    segsNorm (emitCFieldSep tl) = true := by
  cases tl with
  | nil => rfl
  | cons k v tl2 =>
    rw [show jnormFields (.cons k v tl2) = (jnorm v && jnormFields tl2) from rfl,
      Bool.and_eq_true] at hn
    simp [emitCFieldSep, segsNorm, segsNorm_append_iff, emitC_norm v hn.1,
      emitCFields_norm tl2 hn.2]
end

/-! ## Claim C8: both output files decode to the same JSON value -/

theorem jsonLoads_render_of_wf (ascii : Bool) (segs : List Seg) (J : Json)
    (hwf : segsWF segs = true) (hn : segsNorm segs = true)
    (htoks : segToks segs = jsonToks J) :
    jsonLoads (render ascii segs) = some J := by
  have hlex : lexF ((render ascii segs).length + 1) (render ascii segs) =
      some (segToks segs) :=
    lexF_render ascii segs _ hwf hn
      (Nat.lt_succ_of_le (render_length_ge ascii segs))
  simp only [jsonLoads, hlex, htoks, parseToks_jsonToks]

/-- C8: for every successful run, decoding the plain JSON output file and
decoding the decompressed content of the gzip output file yield the same
JSON value — both files serialize the same in-memory record sequence,
differing only in text-encoding options. -/
theorem claim_C8 (rows : List Row) (out : RunOutput)
    (h : run rows = Except.ok out) :
    ∃ J : Json, jsonLoads out.plainFile = some J ∧
      jsonLoads (gunzip out.gzFile) = some J := by
  unfold run at h
  cases hc : convert rows with
  | error e => rw [hc] at h; exact absurd h (by simp)
  | ok records =>
    rw [hc] at h
    injection h with h
    subst h
    have hnorm : jnorm (recordsJson records) = true :=
      jnorm_recordsJson (fun r hr =>
        (convert_mem_buildRec hc r hr).elim
          (fun row hb => buildRec_normalized hb))
    refine ⟨recordsJson records, ?_, ?_⟩
    · have hwf : segsWF (emitP (recordsJson records) 0 ++ ([] : List Seg)) = true :=
        emitP_wf _ 0 [] rfl rfl
      rw [List.append_nil] at hwf
      exact jsonLoads_render_of_wf false _ _ hwf (emitP_norm _ 0 hnorm)
        (segToks_emitP _ 0)
    · have hwf : segsWF (emitC (recordsJson records) ++ ([] : List Seg)) = true :=
        emitC_wf _ [] rfl rfl
      rw [List.append_nil] at hwf
      exact jsonLoads_render_of_wf true _ _ hwf (emitC_norm _ hnorm)
        (segToks_emitC _)

set_option maxRecDepth 4000 in
theorem claim_C8_witness :
    run [alamoRow] = Except.ok outAlamo ∧
    ∃ J : Json, jsonLoads outAlamo.plainFile = some J ∧
      jsonLoads (gunzip outAlamo.gzFile) = some J :=
  have h : run [alamoRow] = Except.ok outAlamo := by decide
  ⟨h, claim_C8 [alamoRow] outAlamo h⟩

end TexasMarkers
